import Mathlib

/-!
Verification development for the GLM parsing / serialization / model
management module `pyvvo/manage_glm.py`.

The Python module is shallowly embedded:
* a Python `dict` is an insertion-ordered chain of key/value entries, built
  from the `Val.nil` / `Val.cons` constructors of `Val`; keys are strings or
  machine integers (`PKey`); values are strings, the one float literal the
  source ever stores, or nested dicts (further chains);
* fallible Python code (KeyError, IndexError, TypeError, AttributeError,
  ValueError, `raise UserWarning`) is modelled with `Option` / explicit
  error results;
* loops whose termination is not structural carry a fuel parameter; every
  use instantiates the fuel large enough that exhaustion is unreachable.
-/

namespace ManageGLM

set_option maxRecDepth 100000

set_option maxHeartbeats 4000000

/-- A Python dict key as used by `manage_glm.py`: field names are strings,
nested children and tree keys are integers. -/
inductive PKey where
  | s (k : String)
  | i (k : Int)
deriving DecidableEq

/-- A Python value stored in the parse tree: a string, the one float
literal appearing in the source (`3600.0`, line 213 of `manage_glm.py`,
the fuse `mean_replacement_time` default - the only non-string, non-dict
value the module ever stores, so the float case carries no payload), or a
dict given as an insertion-ordered entry chain (`nil` / `cons`). -/
inductive Val where
  | str (v : String)
  | float3600
  | nil
  | cons (k : PKey) (v : Val) (rest : Val)
deriving DecidableEq

/-- By convention a `Dict` is a `Val` that is a `nil`/`cons` chain. -/
abbrev Dict := Val

/-- Does this value support Python dict operations (is it a chain)? -/
def isDict : Val → Bool
  | .nil => true
  | .cons _ _ _ => true
  | _ => false

/-- `d[k]` lookup (first binding wins; bindings are unique by construction). -/
def dGetK? : Val → PKey → Option Val
  | .cons k v rest, key => if k = key then some v else dGetK? rest key
  | _, _ => none

/-- `d[k] = v`: update in place if the key is present (Python dicts keep the
original key position), else append at the end of the chain. -/
def dSetK : Val → PKey → Val → Val
  | .cons k v rest, key, value =>
    if k = key then .cons k value rest else .cons k v (dSetK rest key value)
  | _, key, value => .cons key value .nil

/-- `d.pop(k)`: remove the binding, `none` on KeyError. -/
def dPopK? : Val → PKey → Option Val
  | .cons k v rest, key =>
    if k = key then some rest
    else match dPopK? rest key with
      | some rest2 => some (.cons k v rest2)
      | none => none
  | _, _ => none

/-- String-keyed lookup shorthand. -/
def dGet? (d : Val) (k : String) : Option Val := dGetK? d (PKey.s k)

/-- String-keyed update shorthand. -/
def dSet (d : Val) (k : String) (v : Val) : Val := dSetK d (PKey.s k) v

/-- `k in d` membership test on string keys. -/
def dHas (d : Val) (k : String) : Bool := (dGet? d k).isSome

/-- The keys of a dict, in insertion order. -/
def dKeys : Val → List PKey
  | .cons k _ rest => k :: dKeys rest
  | _ => []

/-- `len(d)`: the number of entries of a dict. -/
def dSize : Val → Nat
  | .cons _ _ rest => dSize rest + 1
  | _ => 0

/-- `current_leaf_add` (manage_glm.py lines 87-92): walk the guid stack into
nested dicts and set `key := value` at the innermost open leaf.  `none` when
the path does not lead through dict values (KeyError / TypeError). -/
def leafAdd : Dict → List Int → PKey → Val → Option Dict
  | d, [], key, value => some (dSetK d key value)
  | d, x :: rest, key, value =>
    match dGetK? d (PKey.i x) with
    | some inner =>
      if isDict inner then
        match leafAdd inner rest key value with
        | some inner2 => some (dSetK d (PKey.i x) inner2)
        | none => none
      else none
    | none => none

/-! ## String primitives

Character-level implementations of the Python string operations the module
uses (`str.replace` with one-character arguments, membership, `split` head,
`' '.join`), kept structurally recursive so that concrete runs reduce
inside the kernel. -/

/-- `s.replace(a, b)` for one-character patterns - the only shapes the
source uses (`':' → '_'`, `'-' → '_'`). -/
def charReplace (a b : Char) (s : String) : String :=
  String.mk (s.toList.map (fun c => if c = a then b else c))

/-- Is the character `a` in `s` (`str.find(a) >= 0`)? -/
def strHasChar (s : String) (a : Char) : Bool :=
  s.toList.any (fun c => c = a)

/-- `sep.join(l)` / the `reduce` space-joins of the source. -/
def joinSep (sep : String) : List String → String
  | [] => ""
  | [x] => x
  | x :: rest => x ++ sep ++ joinSep sep rest

/-! ## Tokenizer (`_tokenize_glm`, lines 47-78) -/

/-- ASCII whitespace as matched by the `\s` class used in the source. -/
def pyWs (c : Char) : Bool :=
  c = ' ' ∨ c = '\t' ∨ c = '\n' ∨ c = '\x0d' ∨ c = '\x0b' ∨ c = '\x0c'

/-- The literal removed by the substitution on line 69. -/
def httpPat : List Char := ['h', 't', 't', 'p', ':', '/', '/']

/-- Leftmost nonoverlapping removal of the `http://` literal (line 69). -/
def removeHttp : Nat → List Char → List Char
  | 0, cs => cs
  | _ + 1, [] => []
  | fuel + 1, c :: rest =>
    if httpPat.isPrefixOf (c :: rest) then removeHttp fuel ((c :: rest).drop 7)
    else c :: removeHttp fuel rest

/-- Drop characters up to (but not including) the next newline: the `.*`
part of the comment-stripping regex. -/
def dropToNl : List Char → List Char
  | [] => []
  | c :: rest => if c = '\n' then c :: rest else dropToNl rest

/-- Drop a greedy run of whitespace: the `(\s*)` part of the comment regex. -/
def dropWs : List Char → List Char
  | [] => []
  | c :: rest => if pyWs c then dropWs rest else c :: rest

/-- Comment stripping (line 71): from each `//` remove to the end of the
line together with the following whitespace run. -/
def stripComments : Nat → List Char → List Char
  | 0, cs => cs
  | _ + 1, [] => []
  | fuel + 1, '/' :: '/' :: rest => stripComments fuel (dropWs (dropToNl rest))
  | fuel + 1, c :: rest => c :: stripComments fuel rest

/-- Remove carriage returns and turn tabs into spaces (line 73). -/
def normWsChars (cs : List Char) : List Char :=
  (cs.filter (fun c => c ≠ '\x0d')).map (fun c => if c = '\t' then ' ' else c)

/-- A splitting delimiter of the tokenizing split on line 75: semicolon,
closing brace, opening brace, or one whitespace character. -/
def isTokDelim (c : Char) : Bool :=
  c = ';' ∨ c = '\x7b' ∨ c = '\x7d' ∨ pyWs c

/-- Split keeping one-character delimiter tokens, then drop the empty and
single-space tokens exactly as the comprehension on line 77 does.  `cur` is
the current word accumulated in reverse. -/
def splitToks : List Char → List Char → List String
  | [], cur => if cur.isEmpty then [] else [String.mk cur.reverse]
  | c :: rest, cur =>
    if isTokDelim c then
      (if cur.isEmpty then [] else [String.mk cur.reverse])
        ++ (if c = ' ' then [] else [String.mk [c]])
        ++ splitToks rest []
    else splitToks rest (c :: cur)

/-- `_tokenize_glm` on a model string (the `file_path=False` path). -/
def tokenizeGLM (s : String) : List String :=
  let cs0 := s.toList
  let cs1 := removeHttp cs0.length cs0
  let cs2 := stripComments cs1.length cs1
  splitToks (normWsChars cs2) []

/-! ## Tree builder (`_parse_token_list`, lines 81-230) -/

/-- `list_to_string` (lines 94-100): the empty list gives the empty string;
otherwise `reduce` joins `list_in[1:-1]` with spaces, and `reduce` over an
empty iterable with no initial value raises TypeError (`none`). -/
def listToString? (l : List String) : Option String :=
  match l with
  | [] => some ""
  | _ =>
    match (l.drop 1).dropLast with
    | [] => none
    | m => some (joinSep " " m)

/-- Statement terminators of the token-accumulation loop (lines 114-116). -/
def isTerm (t : String) : Bool :=
  t = "\x7b" ∨ t = ";" ∨ t = "\x7d" ∨ t = "\n" ∨ t = "shape"

/-- Accumulate one full token: pop until the first terminator, inclusive.
`none` models the IndexError when the token list empties first. -/
def takeFull : List String → Option (List String × List String)
  | [] => none
  | t :: rest =>
    if isTerm t then some ([t], rest)
    else
      match takeFull rest with
      | some (ft, rem) => some (t :: ft, rem)
      | none => none

/-- `while full_token[-1] not in [stop]: full_token.append(pop())` - extend
an already-collected statement until the token `stop`, inclusive.  `none`
models the IndexError when the token list empties first. -/
def extendTo (stop : String) : List String → List String → Option (List String × List String)
  | acc, [] => if acc.getLast? = some stop then some (acc, []) else none
  | acc, t :: rest =>
    if acc.getLast? = some stop then some (acc, t :: rest)
    else extendTo stop (acc ++ [t]) rest

/-- `full_token[-2] = v`: `none` models the IndexError when the list is too
short. -/
def setPenult (l : List String) (v : String) : Option (List String) :=
  match l.length with
  | 0 => none
  | 1 => none
  | n + 2 => some (l.set n v)

/-- The `{'omftype': kw, 'argument': arg}` item. -/
def mkOmf (kw arg : String) : Val :=
  .cons (.s "omftype") (.str kw) (.cons (.s "argument") (.str arg) .nil)

/-- The `{'object': 'schedule', 'name': nm, 'cron': cron}` item
(lines 162-163). -/
def mkSched (nm cron : String) : Val :=
  .cons (.s "object") (.str "schedule")
    (.cons (.s "name") (.str nm) (.cons (.s "cron") (.str cron) .nil))

/-- Store a freshly parsed top-level item under its guid. -/
def tSet (tree : Dict) (g : Int) (v : Val) : Dict := dSetK tree (PKey.i g) v

/-- The statement-dispatch loop of `_parse_token_list` (lines 110-181).
One fuel unit per outer iteration; each iteration consumes at least one
token, so fuel = number of tokens suffices. -/
def parseLoop : Nat → List String → Dict → Int → List Int → Option Dict
  | _, [], tree, _, _ => some tree
  | 0, _ :: _, _, _, _ => none
  | fuel + 1, t0 :: ts, tree, guid, stack =>
    match takeFull (t0 :: ts) with
    | none => none
    | some (ft, rest) =>
      if ft.head? = some "#set" ∨ ft.head? = some "#include" then
        -- lines 118-131; both branches have the same shape
        let kw := if ft.head? = some "#set" then "#set" else "#include"
        if ft.getLast? = some ";" then
          match listToString? ft with
          | some arg => parseLoop fuel rest (tSet tree guid (mkOmf kw arg)) (guid + 1) stack
          | none => none
        else
          match listToString? ft with
          | some arg =>
            parseLoop fuel rest (tSet tree guid (.cons (.s kw) (.str arg) .nil)) (guid + 1) stack
          | none => none
      else if ft.head? = some "shape" then
        -- lines 132-138
        match extendTo "\n" ft rest with
        | none => none
        | some (ft2, rest2) =>
          match setPenult ft2 "" with
          | none => none
          | some ft3 =>
            match ft3.head?, listToString? ft3.dropLast with
            | some k0, some v =>
              match leafAdd tree stack (.s k0) (.str v) with
              | some tree2 => parseLoop fuel rest2 tree2 (guid + 1) stack
              | none => none
            | _, _ => none
      else if ft.getLast? = some "\n" ∨ ft.getLast? = some ";" then
        -- lines 139-151
        if stack = [] ∧ ft ≠ ["\n"] ∧ ft ≠ [";"] then
          match ft.head?, listToString? ft with
          | some kw, some arg =>
            parseLoop fuel rest (tSet tree guid (mkOmf kw arg)) (guid + 1) stack
          | _, _ => none
        else if 1 < ft.length then
          match ft.head?, listToString? ft with
          | some k0, some v =>
            match leafAdd tree stack (.s k0) (.str v) with
            | some tree2 => parseLoop fuel rest tree2 guid stack
            | none => none
          | _, _ => none
        else parseLoop fuel rest tree guid stack
      else if ft.getLast? = some "\x7d" then
        -- lines 152-156
        let step1 : Option Dict :=
          if 1 < ft.length then
            match ft.head?, listToString? ft with
            | some k0, some v => leafAdd tree stack (.s k0) (.str v)
            | _, _ => none
          else some tree
        match step1 with
        | none => none
        | some tree2 =>
          if stack.isEmpty then none
          else parseLoop fuel rest tree2 guid stack.dropLast
      else if ft.head? = some "schedule" then
        -- lines 157-164
        match extendTo "\x7d" ft rest with
        | none => none
        | some (ft2, rest2) =>
          match ft2.get? 1 with
          | none => none
          | some nm =>
            let cron := joinSep " " (((ft2.drop 3).dropLast).dropLast)
            parseLoop fuel rest2 (tSet tree guid (mkSched nm cron)) (guid + 1) stack
      else if ft.getLast? = some "\x7b" then
        -- lines 165-181
        match leafAdd tree stack (.i guid) .nil with
        | none => none
        | some tree1 =>
          let stack2 := stack ++ [guid]
          if 1 < ft.length then
            if ft.length < 4 then
              match ft.head?, ft.get? (ft.length - 2) with
              | some k0, some v =>
                match leafAdd tree1 stack2 (.s k0) (.str v) with
                | some tree2 => parseLoop fuel rest tree2 (guid + 1) stack2
                | none => none
              | _, _ => none
            else
              match ft.head?, listToString? ft with
              | some k0, some v2 =>
                match leafAdd tree1 stack2 (.s "omfEmbeddedConfigObject")
                    (.str (k0 ++ " " ++ v2)) with
                | some tree2 => parseLoop fuel rest tree2 (guid + 1) stack2
                | none => none
              | _, _ => none
          else parseLoop fuel rest tree1 (guid + 1) stack2
      else
        -- no branch matches (e.g. a statement ending in the token `shape`
        -- whose first token is not `shape`): the statement is dropped
        parseLoop fuel rest tree guid stack

/-- `tree[key]['object'].split(':')[0]`. -/
def splitHeadColon (s : String) : String :=
  String.mk (s.toList.takeWhile (fun c => c ≠ ':'))

/-- The colon-replacement loop of the legacy pass (lines 198-199): every
value of the entry must support `.replace`, i.e. be a string; a nested dict
or the float default raises AttributeError (`none`). -/
def colonAll : Val → Option Val
  | .nil => some .nil
  | .cons k (.str v) rest =>
    match colonAll rest with
    | some rest2 => some (.cons k (.str (charReplace ':' '_' v)) rest2)
    | none => none
  | _ => none

/-- Replace hyphens with underscores in the value of `key`, when present
(lines 217-224); the value must be a string. -/
def hyphenFix (d : Val) (key : String) : Option Val :=
  match dGet? d key with
  | none => some d
  | some (.str v) => some (dSet d key (.str (charReplace '-' '_' v)))
  | some _ => none

/-- Step 1 of the legacy normalization (lines 190-192): derive `name` from
a colon qualifier; the absence check short-circuits before `.find` is
called on the type value. -/
def normStep1 (d : Val) : Option Val :=
  if dHas d "name" then some d
  else
    match dGet? d "object" with
    | some (.str o) =>
      if strHasChar o ':' then some (dSet d "name" (.str (charReplace ':' '_' o)))
      else some d
    | _ => none

/-- Step 2 (line 195): strip the qualifier from the object type. -/
def normStep2 (d1 : Val) : Option Val :=
  match dGet? d1 "object" with
  | some (.str o) => some (dSet d1 "object" (.str (splitHeadColon o)))
  | _ => none

/-- Step 4 (lines 201-205): is this entry marked for deletion? -/
def normDelFlag (d3 : Val) : Bool :=
  dGet? d3 "object" = some (.str "recorder")
    ∨ dGet? d3 "object" = some (.str "group_recorder")
    ∨ dGet? d3 "object" = some (.str "collector")

/-- Step 5 (lines 207-213): the fuse default, stored as the float 3600.0. -/
def normStep5 (d3 : Val) : Val :=
  if dGet? d3 "object" = some (.str "fuse") ∧ ¬ dHas d3 "mean_replacement_time"
  then dSet d3 "mean_replacement_time" Val.float3600
  else d3

/-- Step 6 (lines 215-224): hyphen replacement on the four naming fields. -/
def normStep6 (d4 : Val) : Option Val := do
  let d5 ← hyphenFix d4 "name"
  let d6 ← hyphenFix d5 "parent"
  let d7 ← hyphenFix d6 "from"
  hyphenFix d7 "to"

/-- The legacy normalization applied to one `object` entry (lines 187-224).
Returns the rewritten entry and whether it is marked for deletion
(`recorder` / `group_recorder` / `collector`). -/
def normObj (d : Val) : Option (Val × Bool) := do
  let d1 ← normStep1 d
  let d2 ← normStep2 d1
  let d3 ← colonAll d2
  let d8 ← normStep6 (normStep5 d3)
  pure (d8, normDelFlag d3)

/-- The legacy-normalization post-pass over the whole tree (lines 183-228):
each entry must be a dict; entries with an `object` key are normalized and
the `recorder` / `group_recorder` / `collector` ones deleted afterwards. -/
def postPassEntries : Val → Option Val
  | .nil => some .nil
  | .cons k v rest =>
    if isDict v then
      if dHas v "object" then
        match normObj v with
        | none => none
        | some (v2, del) =>
          match postPassEntries rest with
          | none => none
          | some rest2 => some (if del then rest2 else .cons k v2 rest2)
      else
        match postPassEntries rest with
        | none => none
        | some rest2 => some (.cons k v rest2)
    else none
  | _ => some .nil

/-- `_parse_token_list` before the legacy post-pass. -/
def tokenParse (text : String) : Option Dict :=
  let toks := tokenizeGLM text
  parseLoop toks.length toks .nil 0 []

/-- `parse` on a model string: tokenize, build the tree, run the legacy
normalization post-pass. -/
def parse (text : String) : Option Dict :=
  match tokenParse text with
  | some tree => postPassEntries tree
  | none => none

/-! ## Serializer (`sorted_write`, `_dict_to_string`, `_gather_key_values`,
lines 233-344) -/

/-- Python `repr` of a dict key: strings are quoted, integers printed.
Quote-escaping inside strings is not modelled (no claim depends on it). -/
def pyReprKey : PKey → String
  | .s k => "\x27" ++ k ++ "\x27"
  | .i k => toString k

/-- The comma-separated `key: value` entries of a dict `repr`, with the
value renderer passed in. -/
def reprEntsWith (f : Val → String) : Val → String
  | .cons k v .nil => pyReprKey k ++ ": " ++ f v
  | .cons k v rest => pyReprKey k ++ ": " ++ f v ++ ", " ++ reprEntsWith f rest
  | _ => ""

/-- Python `repr` of a value, fuelled on dict nesting: strings are quoted,
the float default prints as `3600.0`, dicts print their entries.  The fuel
is irrelevant except on nested dicts, which no exercised value contains. -/
def pyReprF : Nat → Val → String
  | _, .str v => "\x27" ++ v ++ "\x27"
  | _, .float3600 => "3600.0"
  | 0, _ => ""
  | fuel + 1, d => "\x7b" ++ reprEntsWith (pyReprF fuel) d ++ "\x7d"

/-- Python `str()`: the identity on strings, `"3600.0"` on the float
default (`str(3600.0)`), the `repr` rendering on dicts. -/
def pyStr : Val → String
  | .str v => v
  | .float3600 => "3600.0"
  | v => pyReprF 100 v

/-- Python `len()`: defined on strings (code points) and dicts (entry
count); raises TypeError on the float (`none`). -/
def pyLen? : Val → Option Nat
  | .str v => some v.length
  | .float3600 => none
  | v => some (dSize v)

/-- Python indexing `x[i]` by a nonnegative integer: a one-character string
for strings (IndexError out of range), an integer-keyed dict lookup
(KeyError when absent) for dicts, TypeError for the float. -/
def pyIndex? : Val → Nat → Option Val
  | .str v, n => if n < v.length then some (.str (String.mk [v.toList.getD n ' '])) else none
  | .float3600, _ => none
  | v, n => dGetK? v (PKey.i n)

/-- One pass of `_gather_key_values` (lines 315-344), parameterized by the
serializer used on integer-keyed children (the `WARNING: RECURSION HERE`
call back into `_dict_to_string`).  `none` models the TypeError raised when
a branch concatenates a non-string or when the child serializer returns
`None`. -/
def gatherWith (f : Val → Option String) : Val → String → Option String
  | .nil, _ => some ""
  | .cons (PKey.i _) v rest, avoid =>
    match f v, gatherWith f rest avoid with
    | some s, some r => some (s ++ r)
    | _, _ => none
  | .cons (PKey.s k) v rest, avoid =>
    if k = avoid then gatherWith f rest avoid
    else if k = "comment" then
      match v, gatherWith f rest avoid with
      | .str s, some r => some (s ++ "\n" ++ r)
      | _, _ => none
    else if k = "name" ∨ k = "parent" then
      match pyLen? v with
      | none => none
      | some len =>
        if len ≤ 62 then
          match gatherWith f rest avoid with
          | some r => some ("\t" ++ k ++ " " ++ pyStr v ++ ";\n" ++ r)
          | none => none
        else
          -- truncation branch (lines 333-340); the `{:s}` format requires a
          -- string; a RuntimeWarning is raised but does not affect output
          match v, gatherWith f rest avoid with
          | .str s, some r =>
            some ("\t" ++ k ++ " " ++ (String.mk (s.toList.take 62))
              ++ ";\x20\x2f\x2f truncated from " ++ s ++ "\n" ++ r)
          | _, _ => none
    else
      match gatherWith f rest avoid with
      | some r => some ("\t" ++ k ++ " " ++ pyStr v ++ ";\n" ++ r)
      | none => none
  | _, _ => none

/-- The `class` branch loop (lines 303-305): paired
`"\t<type> <name>;\n"` declarations; each indexed element must be a
string. -/
def classPairs (vt vn : Val) : Nat → Nat → Option String
  | _, 0 => some ""
  | x, n + 1 =>
    match pyIndex? vt x, pyIndex? vn x with
    | some (.str a), some (.str b) =>
      match classPairs vt vn (x + 1) n with
      | some r => some ("\t" ++ a ++ " " ++ b ++ ";\n" ++ r)
      | none => none
    | _, _ => none

/-- Render the optional clock field `key` as `"\t<key> <value>;\n"`
(lines 267-275); the concatenation requires a string value. -/
def clockField? (d : Val) (key : String) : Option String :=
  match dGet? d key with
  | none => some ""
  | some (.str v) => some ("\t" ++ key ++ " " ++ v ++ ";\n")
  | some _ => none

/-- `_dict_to_string` (lines 250-312), fuelled on child nesting.  A
non-dict argument, or a dict matching no branch (the function falls off the
end and returns `None`), yields `none`: the caller immediately concatenates
the result, so `None` is a TypeError there. -/
def dictToStringF : Nat → Val → Option String
  | 0, _ => none
  | fuel + 1, d =>
    if ¬ isDict d then none
    else if dHas d "omftype" then
      match dGet? d "omftype", dGet? d "argument" with
      | some (.str o), some (.str a) => some (o ++ " " ++ a ++ ";")
      | _, _ => none
    else if dHas d "module" then
      match dGet? d "module", gatherWith (dictToStringF fuel) d "module" with
      | some (.str m), some g => some ("module " ++ m ++ " \x7b\n" ++ g ++ "\x7d\n")
      | _, _ => none
    else if dHas d "clock" then
      match clockField? d "timezone", clockField? d "starttime", clockField? d "stoptime" with
      | some tz, some st, some sp => some ("clock \x7b\n" ++ tz ++ st ++ sp ++ "\x7d\n")
      | _, _, _ => none
    else if dGet? d "object" = some (.str "schedule") then
      match dGet? d "name", dGet? d "cron" with
      | some (.str nm), some (.str cr) =>
        some ("schedule " ++ nm ++ " \x7b\n" ++ cr ++ "\n\x7d;\n")
      | _, _ => none
    else if dHas d "object" then
      match dGet? d "object", gatherWith (dictToStringF fuel) d "object" with
      | some (.str o), some g => some ("object " ++ o ++ " \x7b\n" ++ g ++ "\x7d;\n")
      | _, _ => none
    else if dHas d "omfEmbeddedConfigObject" then
      match dGet? d "omfEmbeddedConfigObject",
          gatherWith (dictToStringF fuel) d "omfEmbeddedConfigObject" with
      | some (.str h), some g => some (h ++ " \x7b\n" ++ g ++ "\x7d;\n")
      | _, _ => none
    else if dHas d "#include" then
      match dGet? d "#include" with
      | some (.str v) => some ("#include " ++ v)
      | _ => none
    else if dHas d "#define" then
      match dGet? d "#define" with
      | some (.str v) => some ("#define " ++ v ++ "\n")
      | _ => none
    else if dHas d "#set" then
      match dGet? d "#set" with
      | some (.str v) => some ("#set " ++ v)
      | _ => none
    else if dHas d "class" then
      match dGet? d "class" with
      | some (.str c) =>
        match dGet? d "variable_types", dGet? d "variable_names" with
        | some vt, some vn =>
          match pyLen? vt, pyLen? vn with
          | some a, some b =>
            if a = b then
              match classPairs vt vn 0 a with
              | some pairs => some ("class " ++ c ++ " \x7b\n" ++ pairs ++ "\x7d\n")
              | none => none
            else
              match gatherWith (dictToStringF fuel) d "class" with
              | some g => some ("class " ++ c ++ " \x7b\n" ++ g ++ "\x7d\n")
              | none => none
          | _, _ => none
        | _, _ =>
          match gatherWith (dictToStringF fuel) d "class" with
          | some g => some ("class " ++ c ++ " \x7b\n" ++ g ++ "\x7d\n")
          | none => none
      | _ => none
    else none

/-- Serializer fuel: child nesting in any exercised model is far below
this. -/
def serFuel : Nat := 100

/-- `_dict_to_string` at the standing fuel. -/
def dictToString (v : Val) : Option String := dictToStringF serFuel v

/-- `int(key)` as used by the sort on line 240: integers unchanged; strings
of an optional sign and digits parse to the corresponding integer (rarer
accepted forms - surrounding whitespace, underscores - are not modelled);
anything else raises ValueError (`none`), which `sorted_write` turns into a
generic exception. -/
def natOfDigitsAux (acc : Nat) : List Char → Nat
  | [] => acc
  | c :: cs => natOfDigitsAux (acc * 10 + (c.toNat - 48)) cs

def pyIntOfKey? : PKey → Option Int
  | .i k => some k
  | .s v =>
    match v.toList with
    | '-' :: c :: cs =>
      if (c :: cs).all Char.isDigit then some (-(natOfDigitsAux 0 (c :: cs) : Int)) else none
    | c :: cs => if (c :: cs).all Char.isDigit then some (natOfDigitsAux 0 (c :: cs) : Int) else none
    | [] => none

/-- Stable insertion of one keyed element, preserving original order among
equal sort keys (Python's `sorted` is stable). -/
def sortIns (p : Int × PKey) : List (Int × PKey) → List (Int × PKey)
  | [] => [p]
  | q :: rest => if p.1 < q.1 then p :: q :: rest else q :: sortIns p rest

/-- Stable sort of the tree keys by their integer value (line 240). -/
def sortPairs : List (Int × PKey) → List (Int × PKey)
  | [] => []
  | p :: rest => sortIns p (sortPairs rest)

/-- Emit the sorted entries: `output += _dict_to_string(in_tree[key]) + '\n'`
per key (lines 243-244); any failure inside aborts with an exception. -/
def writeEntries (tree : Dict) : List (Int × PKey) → Option String
  | [] => some ""
  | (_, k) :: rest =>
    match dGetK? tree k with
    | none => none
    | some v =>
      match dictToString v, writeEntries tree rest with
      | some s, some r => some (s ++ "\n" ++ r)
      | _, _ => none

/-- `sorted_write` (lines 233-247). -/
def sortedWrite (tree : Dict) : Option String :=
  match (dKeys tree).mapM (fun k => (pyIntOfKey? k).map (fun i => (i, k))) with
  | none => none
  | some pairs => writeEntries tree (sortPairs pairs)

/-! ## Model manager (`GLMManager`, lines 347-838)

Python dicts are mutable objects shared by reference between the model tree
(`model_dict`) and the index (`model_map`); the embedding makes the sharing
explicit with a heap: item dicts live in `heap` under numeric addresses,
and both the tree and the index store addresses.  Every operation returns
the successor state together with an optional raised error, because Python
exceptions leave already-performed mutations in place. -/

/-- The Python exceptions raised or propagated by the manager. -/
inductive PyErr where
  | userWarning (msg : String)
  | keyError
  | typeError
  | indexError
  | valueError
deriving DecidableEq

/-- A manager state: the heap of item dicts, `model_dict` (tree key →
address), and `model_map` split into its four parts, plus both key
counters. -/
structure MState where
  heap : List (Nat × Val)
  modelDict : List (Int × Nat)
  clockMap : Option (Int × Nat)
  moduleMap : List (Val × (Int × Nat))
  objectMap : List (Val × List (Val × (Int × Nat)))
  unnamed : List (Int × Nat)
  appendKey : Int
  prependKey : Int
deriving DecidableEq

/-- Association-list lookup (first binding wins); used for the heap and the
index maps. -/
def alGet? {κ α : Type} [DecidableEq κ] : List (κ × α) → κ → Option α
  | [], _ => none
  | (k, v) :: rest, key => if k = key then some v else alGet? rest key

/-- Association-list update in place, appending when the key is new - the
Python dict update discipline. -/
def alSet {κ α : Type} [DecidableEq κ] : List (κ × α) → κ → α → List (κ × α)
  | [], key, value => [(key, value)]
  | (k, v) :: rest, key, value =>
    if k = key then (k, value) :: rest else (k, v) :: alSet rest key value

/-- `_get_item_type` (lines 811-830). -/
def getItemType (d : Val) : Except PyErr String :=
  if dHas d "object" then .ok "object"
  else if dHas d "module" then .ok "module"
  else if dHas d "clock" then .ok "clock"
  else if dHas d "#include" then .ok "include"
  else if dHas d "#set" then .ok "set"
  else if dHas d "omftype" then .ok "omftype"
  else .error (.userWarning ("Unknown type! Item: " ++ pyStr d))

/-- Dicts are unhashable in Python and raise TypeError when used as a dict
key; strings and floats hash fine. -/
def valHashable : Val → Bool
  | .str _ => true
  | .float3600 => true
  | _ => false

/-- `_add_clock_to_map` (lines 444-456). -/
def addClockToMap (st : MState) (key : Int) (a : Nat) : MState × Option PyErr :=
  match st.clockMap with
  | some _ => (st, some (.userWarning "Multiple clocks defined!"))
  | none => ({ st with clockMap := some (key, a) }, none)

/-- The module-name extraction of `_add_module_to_map` (lines 467-473). -/
def moduleNameOf (d : Val) : Except PyErr Val :=
  if dHas d "module" then
    match dGet? d "module" with
    | some v => .ok v
    | none => .error .keyError
  else if dHas d "omftype" then
    match dGet? d "argument" with
    | some v => .ok v
    | none => .error .keyError
  else .error (.userWarning ("Malformed module_dict: " ++ pyStr d))

/-- `_add_module_to_map` (lines 458-481). -/
def addModuleToMap (st : MState) (key : Int) (a : Nat) : MState × Option PyErr :=
  match alGet? st.heap a with
  | none => (st, some .keyError)
  | some d =>
    match moduleNameOf d with
    | .error e => (st, some e)
    | .ok nm =>
      if ¬ valHashable nm then (st, some .typeError)
      else if (alGet? st.moduleMap nm).isSome then
        (st, some (.userWarning ("Module " ++ pyStr nm ++ " is already present!")))
      else ({ st with moduleMap := alSet st.moduleMap nm (key, a) }, none)

/-- Creation of a missing type entry (lines 500-501). -/
def ensureTypeEntry (st : MState) (ty : Val) : MState :=
  if (alGet? st.objectMap ty).isSome then st
  else { st with objectMap := alSet st.objectMap ty [] }

/-- The nested per-type map, after the type entry is ensured. -/
def tyMapOf (st : MState) (ty : Val) : List (Val × (Int × Nat)) :=
  (alGet? st.objectMap ty).getD []

/-- `_add_object_to_map` (lines 483-517).  A missing type entry is created
before any duplicate check, and an unnamed object goes to the unnamed list
via the caught KeyError. -/
def addObjectToMap (st : MState) (key : Int) (a : Nat) : MState × Option PyErr :=
  match alGet? st.heap a with
  | none => (st, some .keyError)
  | some d =>
    match dGet? d "object" with
    | none => (st, some .keyError)
    | some ty =>
      if ¬ valHashable ty then (st, some .typeError)
      else
        match dGet? d "name" with
        | none =>
          ({ ensureTypeEntry st ty with
              unnamed := (ensureTypeEntry st ty).unnamed ++ [(key, a)] }, none)
        | some nm =>
          if ¬ valHashable nm then (ensureTypeEntry st ty, some .typeError)
          else if (alGet? (tyMapOf (ensureTypeEntry st ty) ty) nm).isSome then
            (ensureTypeEntry st ty, some (.userWarning
              (pyStr nm ++ " already exists in the " ++ pyStr ty ++ " map!")))
          else
            ({ ensureTypeEntry st ty with
                objectMap := alSet (ensureTypeEntry st ty).objectMap ty
                  (alSet (tyMapOf (ensureTypeEntry st ty) ty) nm (key, a)) }, none)

/-- The value-coercion loop of `add_item` (lines 543-549): walk the keys in
order; a non-string key raises with the earlier entries already coerced;
each string-keyed value is replaced by its `str()` rendering. -/
def coerceEntries : Val → Val × Option PyErr
  | .cons (PKey.i n) v rest =>
    (.cons (PKey.i n) v rest, some (.userWarning "All keys must be strings!"))
  | .cons (PKey.s k) v rest =>
    (.cons (PKey.s k) (.str (pyStr v)) (coerceEntries rest).1, (coerceEntries rest).2)
  | d => (d, none)

/-- `_add_object` (lines 561-576): map first (which may raise), then store
the very same dict at `append_key` and increment it. -/
def addObjectM (st : MState) (a : Nat) : MState × Option PyErr :=
  match addObjectToMap st st.appendKey a with
  | (st1, some e) => (st1, some e)
  | (st1, none) =>
    ({ st1 with
        modelDict := alSet st1.modelDict st1.appendKey a,
        appendKey := st1.appendKey + 1 }, none)

/-- The mapping step of `_add_non_object` (lines 606-621). -/
def nonObjectMapStep (st : MState) (itemType : String) (a : Nat) :
    MState × Option PyErr :=
  if itemType = "clock" then addClockToMap st st.prependKey a
  else if itemType = "module" then addModuleToMap st st.prependKey a
  else if itemType = "set" ∨ itemType = "include" then (st, none)
  else (st, some (.userWarning ("No add method for " ++ itemType ++ " item type.")))

/-- `_add_non_object` (lines 595-627): map clock/module (set/include are
unmapped), then store the dict at `prepend_key` and decrement it. -/
def addNonObject (st : MState) (itemType : String) (a : Nat) : MState × Option PyErr :=
  match nonObjectMapStep st itemType a with
  | (st1, some e) => (st1, some e)
  | (st1, none) =>
    ({ st1 with
        modelDict := alSet st1.modelDict st1.prependKey a,
        prependKey := st1.prependKey - 1 }, none)

/-- `add_item` (lines 533-559): classify, coerce all values of the caller
dict in place, then dispatch. -/
def addItem (st : MState) (a : Nat) : MState × Option PyErr :=
  match alGet? st.heap a with
  | none => (st, some .keyError)
  | some d =>
    match getItemType d with
    | .error e => (st, some e)
    | .ok t =>
      match coerceEntries d with
      | (d2, some e) => ({ st with heap := alSet st.heap a d2 }, some e)
      | (d2, none) =>
        if t = "object" then addObjectM { st with heap := alSet st.heap a d2 } a
        else if t = "clock" ∨ t = "module" ∨ t = "include" ∨ t = "set" ∨ t = "omftype" then
          addNonObject { st with heap := alSet st.heap a d2 } t a
        else ({ st with heap := alSet st.heap a d2 },
          some (.userWarning ("No add method for item type " ++ t)))

/-- `_lookup_object` (lines 777-786).  The caught KeyError becomes a
UserWarning; an unhashable key raises TypeError uncaught. -/
def lookupObject (st : MState) (ty nm : Val) : Except PyErr (Int × Nat) :=
  if ¬ valHashable ty ∨ ¬ valHashable nm then .error .typeError
  else
    let msg := "Object of type " ++ pyStr ty ++ " and name " ++ pyStr nm
      ++ " does not exist in the model map!"
    match alGet? st.objectMap ty with
    | none => .error (.userWarning msg)
    | some tyMap =>
      match alGet? tyMap nm with
      | none => .error (.userWarning msg)
      | some ka => .ok ka

/-- `_modify_item` (lines 677-690): write each update entry into the item,
coercing the value to a string. -/
def applyUpdate : Val → Val → Val
  | target, .cons k v rest => applyUpdate (dSetK target k (.str (pyStr v))) rest
  | target, _ => target

/-- The omftype-style module conversion of `modify_item` (lines 663-668). -/
def omfModuleConv (td : Val) : Except PyErr Val :=
  if dHas td "omftype" then
    match dGet? td "argument" with
    | none => .error .keyError
    | some arg =>
      match dPopK? (dSet td "module" arg) (PKey.s "omftype") with
      | none => .error .keyError
      | some td1 =>
        match dPopK? td1 (PKey.s "argument") with
        | none => .error .keyError
        | some td2 => .ok td2
  else .ok td

/-- `modify_item` (lines 629-675).  The identity keys are popped from the
caller dict before the target lookup, so they are gone even when the
lookup fails. -/
def modifyItem (st : MState) (a : Nat) : MState × Option PyErr :=
  match alGet? st.heap a with
  | none => (st, some .keyError)
  | some d =>
    match getItemType d with
    | .error e => (st, some e)
    | .ok t =>
      if t = "object" then
        if ¬ dHas d "name" then
          (st, some (.userWarning "To update an object, its name is needed."))
        else
          match dGet? d "object", dPopK? d (PKey.s "object") with
          | some ty, some d1 =>
            match dGet? d1 "name", dPopK? d1 (PKey.s "name") with
            | some nm, some d2 =>
              match lookupObject { st with heap := alSet st.heap a d2 } ty nm with
              | .error e => ({ st with heap := alSet st.heap a d2 }, some e)
              | .ok ka =>
                match alGet? (alSet st.heap a d2) ka.2 with
                | none => ({ st with heap := alSet st.heap a d2 }, some .keyError)
                | some td =>
                  ({ st with heap := alSet (alSet st.heap a d2) ka.2 (applyUpdate td d2) },
                    none)
            | _, _ => (st, some .keyError)
          | _, _ => (st, some .keyError)
      else if t = "clock" then
        match dPopK? d (PKey.s "clock") with
        | none => (st, some .keyError)
        | some d1 =>
          match st.clockMap with
          | none => ({ st with heap := alSet st.heap a d1 },
              some (.userWarning "Clock does not exist!"))
          | some ka =>
            match alGet? (alSet st.heap a d1) ka.2 with
            | none => ({ st with heap := alSet st.heap a d1 }, some .keyError)
            | some td =>
              ({ st with heap := alSet (alSet st.heap a d1) ka.2 (applyUpdate td d1) },
                none)
      else if t = "module" then
        match dGet? d "module", dPopK? d (PKey.s "module") with
        | some nm, some d1 =>
          if ¬ valHashable nm then ({ st with heap := alSet st.heap a d1 }, some .typeError)
          else
            match alGet? st.moduleMap nm with
            | none => ({ st with heap := alSet st.heap a d1 },
                some (.userWarning ("Module " ++ pyStr nm ++ " does not exist!")))
            | some ka =>
              match alGet? (alSet st.heap a d1) ka.2 with
              | none => ({ st with heap := alSet st.heap a d1 }, some .keyError)
              | some td =>
                match omfModuleConv td with
                | .error e => ({ st with heap := alSet st.heap a d1 }, some e)
                | .ok tdc =>
                  ({ st with heap := alSet (alSet st.heap a d1) ka.2 (applyUpdate tdc d1) },
                    none)
        | _, _ => (st, some .keyError)
      else (st, some (.userWarning ("Cannot modify item of type " ++ t)))

/-- `_remove_from_item` (lines 798-809): pop each listed field in order;
a missing field raises, leaving the earlier pops applied. -/
def removeFields : Val → List String → Val × Option PyErr
  | d, [] => (d, none)
  | d, k :: rest =>
    match dPopK? d (PKey.s k) with
    | some d2 => removeFields d2 rest
    | none => (d, some (.userWarning ("Could not remove nonexistent field " ++ k)))

/-- The target identification of `remove_properties_from_item`
(lines 698-726). -/
def removeTarget (st : MState) (d : Val) (t : String) : Except PyErr (Int × Nat) :=
  if t = "object" then
    if ¬ dHas d "name" then
      .error (.userWarning "To update an object, its name is needed.")
    else
      match dGet? d "object", dGet? d "name" with
      | some ty, some nm => lookupObject st ty nm
      | _, _ => .error .keyError
  else if t = "clock" then
    match st.clockMap with
    | none => .error (.userWarning "Clock does not exist!")
    | some ka => .ok ka
  else if t = "module" then
    match dGet? d "module" with
    | none => .error .keyError
    | some nm =>
      if ¬ valHashable nm then .error .typeError
      else
        match alGet? st.moduleMap nm with
        | none => .error (.userWarning ("Module " ++ pyStr nm ++ " does not exist!"))
        | some ka => .ok ka
  else .error (.userWarning ("Cannot remove properties from items of type " ++ t))

/-- `remove_properties_from_item` (lines 692-726). -/
def removePropsFromItem (st : MState) (a : Nat) (props : List String) :
    MState × Option PyErr :=
  match alGet? st.heap a with
  | none => (st, some .keyError)
  | some d =>
    match getItemType d with
    | .error e => (st, some e)
    | .ok t =>
      match removeTarget st d t with
      | .error e => (st, some e)
      | .ok ka =>
        match alGet? st.heap ka.2 with
        | none => (st, some .keyError)
        | some td =>
          ({ st with heap := alSet st.heap ka.2 (removeFields td props).1 },
            (removeFields td props).2)

/-- The per-item dispatch of `_map_model_dict` (lines 416-440). -/
def mapStep (st : MState) (key : Int) (a : Nat) (d : Val) (t : String) :
    MState × Option PyErr :=
  if t = "object" then addObjectToMap st key a
  else if t = "clock" then addClockToMap st key a
  else if t = "module" then addModuleToMap st key a
  else if t = "omftype" then
    if dGet? d "omftype" = some (.str "module") then addModuleToMap st key a
    else (st, none)
  else if t = "set" ∨ t = "include" then (st, none)
  else (st, some (.userWarning ("Unimplemented item: " ++ pyStr d)))

/-- `_map_model_dict` (lines 398-442): classify every top-level tree entry
in insertion order and feed it to the matching map builder; `omftype` items
are mapped only when their keyword is `module`. -/
def mapEntries : List (Int × Nat) → MState → MState × Option PyErr
  | [], st => (st, none)
  | (key, a) :: rest, st =>
    match alGet? st.heap a with
    | none => (st, some .keyError)
    | some d =>
      match getItemType d with
      | .error e => (st, some e)
      | .ok t =>
        match mapStep st key a d t with
        | (st1, some e) => (st1, some e)
        | (st1, none) => mapEntries rest st1

/-- The top-level tree keys when they are all integers (`max`/`min` on
mixed key types raises). -/
def intKeys? : Val → Option (List Int)
  | .nil => some []
  | .cons (PKey.i k) _ rest => (intKeys? rest).map (fun l => k :: l)
  | _ => none

/-- Lay the top-level item dicts out on a fresh heap, one address per tree
entry, in insertion order. -/
def allocHeap : Val → Nat → List (Nat × Val) × List (Int × Nat)
  | .cons (PKey.i k) v rest, n =>
    let (h, md) := allocHeap rest (n + 1)
    ((n, v) :: h, (k, n) :: md)
  | _, _ => ([], [])

/-- `GLMManager.__init__` after parsing (lines 358-388): key counters from
the max/min tree keys, then `_map_model_dict`.  `none` models the
exception when the tree keys are not integers or the tree is empty. -/
def mkManager (tree : Dict) : Option (MState × Option PyErr) :=
  match intKeys? tree with
  | none => none
  | some [] => none
  | some (k0 :: ks) =>
    let (h, md) := allocHeap tree 0
    let st0 : MState :=
      { heap := h, modelDict := md, clockMap := none, moduleMap := [],
        objectMap := [], unnamed := [], appendKey := ks.foldl max k0 + 1,
        prependKey := ks.foldl min k0 - 1 }
    some (mapEntries md st0)

/-- A sequence of `add_item` calls, stopping at the first raised error. -/
def runAdds : List Nat → MState → MState × Option PyErr
  | [], st => (st, none)
  | a :: rest, st =>
    match addItem st a with
    | (st1, some e) => (st1, some e)
    | (st1, none) => runAdds rest st1

/-! ## Concrete instances used by the closed theorems below -/

/-- The module docstring's own clock example (lines 51-52): a clock with a
field outside the `timezone`/`starttime`/`stoptime` trio. -/
def clockyTxt : String := "clock \x7bclockey valley;\x7d;"

/-- A representative model exercising a module, a clock with the three
standard fields, a directive, and a named object. -/
def rtModelTxt : String :=
  "module powerflow \x7bsolver_method NR;\x7d;\nclock \x7btimezone EST5EDT; starttime x1; stoptime x2;\x7d;\n#set minimum_timestep=30;\nobject load \x7bname ld1; phases ABCN;\x7d;"

/-- An object carrying a `comment` field: the serializer writes such a
field verbatim on its own line (line 327), without tab, key or semicolon,
so the serialized text no longer re-parses. -/
def commentTxt : String := "object foo \x7bname f1; comment bar;\x7d;"

/-- One recorder object statement. -/
def recorderTxt : String := "object recorder \x7bname r1;\x7d;"

/-- One group_recorder object statement. -/
def groupRecTxt : String := "object group_recorder \x7bname g1;\x7d;"

/-- One collector object statement. -/
def collectorTxt : String := "object collector \x7bname c1;\x7d;"

/-- The module docstring's own nested-object example (lines 53-54). -/
def nestedTxt : String :=
  "object house \x7bname myhouse; object ZIPload \x7binductance bigind; power newpower;\x7d; size 234sqft;\x7d;"

/-- One fuse object statement without a `mean_replacement_time` field
(the spec's example scenario). -/
def fuseTxt : String := "object fuse \x7bname f1; phases ABC;\x7d;"

/-- A hand-built tree whose single top-level entry contains a nested,
named child object - the shape the claim says the index builder should
classify recursively. -/
def nestedTree : Dict :=
  .cons (.i 0)
    (.cons (.s "object") (.str "house")
      (.cons (.s "name") (.str "h1")
        (.cons (.i 1)
          (.cons (.s "object") (.str "ZIPload") (.cons (.s "name") (.str "z1") .nil))
          .nil)))
    .nil

/-- The tree built from `fuseTxt` before the post-pass. -/
def fuseTree : Dict :=
  .cons (.i 0) (.cons (.s "object") (.str "fuse")
    (.cons (.s "name") (.str "f1") (.cons (.s "phases") (.str "ABC") .nil))) .nil

/-- The tree of `fuseTxt` after the post-pass. -/
def fuseTreePost : Dict :=
  .cons (.i 0) (.cons (.s "object") (.str "fuse")
    (.cons (.s "name") (.str "f1") (.cons (.s "phases") (.str "ABC")
      (.cons (.s "mean_replacement_time") .float3600 .nil)))) .nil

/-- A clock item carrying an extra field, with the standard trio stored out
of order and `starttime` absent. -/
def clockItemW : Val :=
  .cons (.s "clock") (.str "clock") (.cons (.s "foo") (.str "bar")
    (.cons (.s "stoptime") (.str "S") (.cons (.s "timezone") (.str "T") .nil)))

/-! ## Dictionary lemmas -/

theorem dGetK_dSetK_self (d : Val) (k : PKey) (v : Val) :
    dGetK? (dSetK d k v) k = some v := by
  induction d with
  | str w => simp [dSetK, dGetK?]
  | float3600 => simp [dSetK, dGetK?]
  | nil => simp [dSetK, dGetK?]
  | cons k2 v2 rest ihv ihr =>
    by_cases hk : k2 = k
    · subst hk; simp [dSetK, dGetK?]
    · simp [dSetK, hk, dGetK?, ihr]

theorem dGetK_dSetK_ne (d : Val) (k k2 : PKey) (v : Val) (h : k2 ≠ k) :
    dGetK? (dSetK d k v) k2 = dGetK? d k2 := by
  have h2 : k ≠ k2 := fun e => h e.symm
  induction d with
  | str w => simp [dSetK, dGetK?, h2]
  | float3600 => simp [dSetK, dGetK?, h2]
  | nil => simp [dSetK, dGetK?, h2]
  | cons k3 v3 rest ihv ihr =>
    by_cases hk : k3 = k
    · subst hk; simp [dSetK, dGetK?, h2]
    · simp [dSetK, hk, dGetK?, ihr]

theorem colonAll_get_str (d : Val) (key : PKey) (s : String) :
    ∀ d', colonAll d = some d' → dGetK? d key = some (.str s) →
      dGetK? d' key = some (.str (charReplace ':' '_' s)) := by
  induction d with
  | str w => intro d' h hg; simp [dGetK?] at hg
  | float3600 => intro d' h hg; simp [dGetK?] at hg
  | nil => intro d' h hg; simp [dGetK?] at hg
  | cons k v rest ihv ihr =>
    intro d' h hg
    cases v with
    | str vs =>
      simp only [colonAll] at h
      cases hr : colonAll rest with
      | none => rw [hr] at h; cases h
      | some rest2 =>
        rw [hr] at h
        injection h with h
        subst h
        by_cases hk : k = key
        · subst hk
          simp only [dGetK?, if_pos rfl] at hg ⊢
          injection hg with hg
          injection hg with hg
          subst hg
          rfl
        · simp only [dGetK?, if_neg hk] at hg ⊢
          exact ihr rest2 hr hg
    | float3600 => simp [colonAll] at h
    | nil => simp [colonAll] at h
    | cons a b c => simp [colonAll] at h

theorem colonAll_get_none (d : Val) (key : PKey) :
    ∀ d', colonAll d = some d' → dGetK? d key = none → dGetK? d' key = none := by
  induction d with
  | str w => intro d' h hg; cases h
  | float3600 => intro d' h hg; cases h
  | nil => intro d' h hg; injection h with h; subst h; rfl
  | cons k v rest ihv ihr =>
    intro d' h hg
    cases v with
    | str vs =>
      simp only [colonAll] at h
      cases hr : colonAll rest with
      | none => rw [hr] at h; cases h
      | some rest2 =>
        rw [hr] at h
        injection h with h
        subst h
        by_cases hk : k = key
        · subst hk; simp [dGetK?] at hg
        · simp only [dGetK?, if_neg hk] at hg ⊢
          exact ihr rest2 hr hg
    | float3600 => simp [colonAll] at h
    | nil => simp [colonAll] at h
    | cons a b c => simp [colonAll] at h

theorem hyphenFix_get_ne (d d' : Val) (key : String) (k2 : PKey)
    (h : hyphenFix d key = some d') (hne : k2 ≠ PKey.s key) :
    dGetK? d' k2 = dGetK? d k2 := by
  unfold hyphenFix at h
  cases hg : dGet? d key with
  | none => rw [hg] at h; injection h with h; subst h; rfl
  | some v =>
    rw [hg] at h
    cases v with
    | str vs =>
      injection h with h
      subst h
      exact dGetK_dSetK_ne d (PKey.s key) k2 _ hne
    | float3600 => cases h
    | nil => cases h
    | cons a b c => cases h

/-! ## The fuse default through the post-pass -/

theorem normStep1_fuse (d : Val) (hobj : dGet? d "object" = some (.str "fuse")) :
    normStep1 d = some d := by
  have e1 : strHasChar "fuse" ':' = false := by decide
  unfold normStep1
  rw [hobj]
  by_cases hn : dHas d "name" = true <;> simp [hn, e1]

theorem normStep2_fuse (d : Val) (hobj : dGet? d "object" = some (.str "fuse")) :
    normStep2 d = some (dSet d "object" (.str "fuse")) := by
  have e2 : splitHeadColon "fuse" = "fuse" := by decide
  unfold normStep2
  rw [hobj]
  simp [e2]

theorem normStep6_get_ne (d4 d8 : Val) (k2 : PKey)
    (h : normStep6 d4 = some d8)
    (h1 : k2 ≠ PKey.s "name") (h2 : k2 ≠ PKey.s "parent")
    (h3 : k2 ≠ PKey.s "from") (h4 : k2 ≠ PKey.s "to") :
    dGetK? d8 k2 = dGetK? d4 k2 := by
  unfold normStep6 at h
  cases e1 : hyphenFix d4 "name" with
  | none => rw [e1] at h; cases h
  | some d5 =>
    rw [e1] at h
    simp only [Option.bind_eq_bind, Option.some_bind] at h
    cases e2 : hyphenFix d5 "parent" with
    | none => rw [e2] at h; cases h
    | some d6 =>
      rw [e2] at h
      simp only [Option.bind_eq_bind, Option.some_bind] at h
      cases e3 : hyphenFix d6 "from" with
      | none => rw [e3] at h; cases h
      | some d7 =>
        rw [e3] at h
        simp only [Option.bind_eq_bind, Option.some_bind] at h
        rw [hyphenFix_get_ne d7 d8 "to" k2 h h4,
          hyphenFix_get_ne d6 d7 "from" k2 e3 h3,
          hyphenFix_get_ne d5 d6 "parent" k2 e2 h2,
          hyphenFix_get_ne d4 d5 "name" k2 e1 h1]

/-- On an entry whose type is exactly `fuse` and which lacks
`mean_replacement_time`, the legacy normalization adds the float default
and does not mark the entry for deletion. -/
theorem normObj_fuse (d d' : Val) (del : Bool)
    (hobj : dGet? d "object" = some (.str "fuse"))
    (hmrt : dGet? d "mean_replacement_time" = none)
    (h : normObj d = some (d', del)) :
    dGet? d' "mean_replacement_time" = some Val.float3600 ∧ del = false := by
  have e3 : charReplace ':' '_' "fuse" = "fuse" := by decide
  have kne : (PKey.s "mean_replacement_time") ≠ (PKey.s "object") := by decide
  unfold normObj at h
  rw [normStep1_fuse d hobj] at h
  simp only [Option.bind_eq_bind, Option.some_bind] at h
  rw [normStep2_fuse d hobj] at h
  simp only [Option.bind_eq_bind, Option.some_bind] at h
  cases hc : colonAll (dSet d "object" (.str "fuse")) with
  | none => rw [hc] at h; cases h
  | some d3 =>
    rw [hc] at h
    simp only [Option.bind_eq_bind, Option.some_bind] at h
    have hobj2 : dGetK? (dSet d "object" (.str "fuse")) (PKey.s "object")
        = some (.str "fuse") := dGetK_dSetK_self d (PKey.s "object") (.str "fuse")
    have hmrt2 : dGetK? (dSet d "object" (.str "fuse")) (PKey.s "mean_replacement_time")
        = none := by
      rw [dSet, dGetK_dSetK_ne d (PKey.s "object") (PKey.s "mean_replacement_time") _ kne]
      exact hmrt
    have hobj3 : dGetK? d3 (PKey.s "object") = some (.str "fuse") := by
      have hx := colonAll_get_str (dSet d "object" (.str "fuse")) (PKey.s "object")
        "fuse" d3 hc hobj2
      rw [e3] at hx
      exact hx
    have hmrt3 : dGetK? d3 (PKey.s "mean_replacement_time") = none :=
      colonAll_get_none (dSet d "object" (.str "fuse"))
        (PKey.s "mean_replacement_time") d3 hc hmrt2
    have hdelf : normDelFlag d3 = false := by
      unfold normDelFlag
      rw [dGet?, hobj3]
      decide
    have h5 : normStep5 d3 = dSet d3 "mean_replacement_time" Val.float3600 := by
      unfold normStep5
      rw [dGet?, hobj3, dHas, dGet?, hmrt3]
      simp
    rw [h5] at h
    cases h6 : normStep6 (dSet d3 "mean_replacement_time" Val.float3600) with
    | none => rw [h6] at h; cases h
    | some d8 =>
      rw [h6] at h
      simp only [Option.bind_eq_bind, Option.some_bind, Option.pure_def] at h
      rw [hdelf] at h
      injection h with h
      injection h with hA hB
      subst hA
      refine ⟨?_, hB.symm⟩
      rw [dGet?]
      rw [normStep6_get_ne _ _ _ h6 (by decide) (by decide) (by decide) (by decide)]
      exact dGetK_dSetK_self d3 (PKey.s "mean_replacement_time") Val.float3600

/-- Case analysis of the post-pass at a cons entry. -/
theorem postPass_cons (k1 : PKey) (v rest out : Val)
    (hpp : postPassEntries (.cons k1 v rest) = some out) :
    ∃ rest2, postPassEntries rest = some rest2 ∧
      ((∃ v2 del, dHas v "object" = true ∧ normObj v = some (v2, del) ∧
          out = (if del then rest2 else .cons k1 v2 rest2)) ∨
       (dHas v "object" = false ∧ out = .cons k1 v rest2)) := by
  simp only [postPassEntries] at hpp
  by_cases hd : isDict v = true
  · rw [if_pos hd] at hpp
    by_cases ho : dHas v "object" = true
    · rw [if_pos ho] at hpp
      cases hn : normObj v with
      | none => rw [hn] at hpp; cases hpp
      | some pr =>
        rw [hn] at hpp
        obtain ⟨v2, del⟩ := pr
        cases hr : postPassEntries rest with
        | none => rw [hr] at hpp; cases hpp
        | some rest2 =>
          rw [hr] at hpp
          injection hpp with hpp
          exact ⟨rest2, rfl, Or.inl ⟨v2, del, ho, rfl, hpp.symm⟩⟩
    · rw [if_neg ho] at hpp
      cases hr : postPassEntries rest with
      | none => rw [hr] at hpp; cases hpp
      | some rest2 =>
        rw [hr] at hpp
        injection hpp with hpp
        exact ⟨rest2, rfl, Or.inr ⟨Bool.not_eq_true _ ▸ eq_false_of_ne_true ho, hpp.symm⟩⟩
  · rw [if_neg hd] at hpp
    cases hpp

/-- C7 (amended): for every tree, every entry whose type is `fuse` and
which lacks a `mean_replacement_time` field ends the normalization pass
with that field set to the float `3600.0`. -/
theorem c7_fuse_default_amended :
    ∀ (tree : Val) (tree2 : Val) (k : PKey) (d : Val),
      dGetK? tree k = some d →
      dGet? d "object" = some (.str "fuse") →
      dGet? d "mean_replacement_time" = none →
      postPassEntries tree = some tree2 →
      ∃ d2, dGetK? tree2 k = some d2 ∧
        dGet? d2 "mean_replacement_time" = some Val.float3600 := by
  intro tree
  induction tree with
  | str w => intro tree2 k d hg; cases hg
  | float3600 => intro tree2 k d hg; cases hg
  | nil => intro tree2 k d hg; cases hg
  | cons k1 v rest ihv ihr =>
    intro tree2 k d hg hobj hmrt hpp
    obtain ⟨rest2, hr, hcase⟩ := postPass_cons k1 v rest tree2 hpp
    by_cases hk : k1 = k
    · subst hk
      simp only [dGetK?, if_pos rfl] at hg
      injection hg with hg
      subst hg
      rcases hcase with ⟨v2, del, ho, hn, hout⟩ | ⟨ho, hout⟩
      · obtain ⟨hfuse, hdel⟩ := normObj_fuse v v2 del hobj hmrt hn
        subst hdel
        subst hout
        exact ⟨v2, by simp [dGetK?], hfuse⟩
      · rw [dHas, hobj] at ho
        cases ho
    · simp only [dGetK?, if_neg hk] at hg
      obtain ⟨d2, hg2, hf2⟩ := ihr rest2 k d hg hobj hmrt hr
      rcases hcase with ⟨v2, del, ho, hn, hout⟩ | ⟨ho, hout⟩
      · subst hout
        cases del with
        | true => exact ⟨d2, hg2, hf2⟩
        | false =>
          refine ⟨d2, ?_, hf2⟩
          simp only [if_neg, Bool.false_eq_true, dGetK?, if_neg hk]
          exact hg2
      · subst hout
        refine ⟨d2, ?_, hf2⟩
        simp only [dGetK?, if_neg hk]
        exact hg2

/-- Witness for the amended C7 theorem at the concrete `fuse` tree. -/
theorem c7_fuse_default_amended_witness :
    (dGetK? fuseTree (.i 0)
        = some (.cons (.s "object") (.str "fuse")
            (.cons (.s "name") (.str "f1") (.cons (.s "phases") (.str "ABC") .nil)))) ∧
    (∃ d2, dGetK? fuseTreePost (.i 0) = some d2 ∧
      dGet? d2 "mean_replacement_time" = some Val.float3600) :=
  ⟨by decide,
    c7_fuse_default_amended fuseTree fuseTreePost (.i 0)
      (.cons (.s "object") (.str "fuse")
        (.cons (.s "name") (.str "f1") (.cons (.s "phases") (.str "ABC") .nil)))
      (by decide) (by decide) (by decide) (by decide)⟩

/-- Manager state for the C3 counterexample: one indexed object
(`house`, `h1`) at tree key 5 / heap address 0, and a caller item dict at
address 1 identifying it. -/
def c3State : MState :=
  { heap := [(0, .cons (.s "object") (.str "house")
      (.cons (.s "name") (.str "h1") (.cons (.s "phases") (.str "ABC") .nil))),
     (1, .cons (.s "object") (.str "house") (.cons (.s "name") (.str "h1") .nil))],
    modelDict := [(5, 0)],
    clockMap := none, moduleMap := [],
    objectMap := [(.str "house", [(.str "h1", (5, 0))])],
    unnamed := [], appendKey := 6, prependKey := 4 }

/-! ## Lemmas on field removal -/

theorem dPopK_none_iff (d : Val) (k : PKey) :
    dPopK? d k = none ↔ dGetK? d k = none := by
  induction d with
  | str w => simp [dPopK?, dGetK?]
  | float3600 => simp [dPopK?, dGetK?]
  | nil => simp [dPopK?, dGetK?]
  | cons k2 v rest ihv ihr =>
    by_cases hk : k2 = k
    · subst hk; simp [dPopK?, dGetK?]
    · simp only [dPopK?, dGetK?, if_neg hk]
      cases hp : dPopK? rest k <;> simp_all

/-- `_remove_from_item` on a list whose prefix pops succeed and whose next
field is absent: the earlier pops are applied, the traversal stops with
the UserWarning naming the missing field, and the suffix is untouched. -/
theorem removeFields_first_missing (pre : List String) :
    ∀ (td td2 : Val) (p : String) (post : List String),
      removeFields td pre = (td2, none) →
      dHas td2 p = false →
      removeFields td (pre ++ p :: post)
        = (td2, some (.userWarning ("Could not remove nonexistent field " ++ p))) := by
  induction pre with
  | nil =>
    intro td td2 p post hpre hmiss
    simp only [removeFields] at hpre
    injection hpre with h1 h2
    subst h1
    simp only [List.nil_append, removeFields]
    rw [dHas] at hmiss
    have hpop : dPopK? td (PKey.s p) = none := by
      rw [dPopK_none_iff]
      rw [dGet?] at hmiss
      cases hg : dGetK? td (PKey.s p)
      · rfl
      · rw [hg] at hmiss; cases hmiss
    rw [hpop]
  | cons q pre2 ih =>
    intro td td2 p post hpre hmiss
    simp only [removeFields] at hpre
    cases hq : dPopK? td (PKey.s q) with
    | none => rw [hq] at hpre; injection hpre with h1 h2; cases h2
    | some td3 =>
      rw [hq] at hpre
      simp only [List.cons_append, removeFields, hq]
      exact ih td3 td2 p post hpre hmiss

/-- Is this a dict whose keys are all strings and whose values are all
strings?  On such items the `add_item` value coercion is the identity. -/
def strDict : Val → Bool
  | .nil => true
  | .cons (PKey.s _) (.str _) rest => strDict rest
  | _ => false

/-- Manager state for the C4/C6/C8/C10 witnesses: a clock, one module, one
named object, and caller item dicts on the heap at addresses 100-103. -/
def c4State : MState :=
  { heap := [(0, .cons (.s "clock") (.str "clock") .nil),
      (1, .cons (.s "module") (.str "powerflow") .nil),
      (2, .cons (.s "object") (.str "load") (.cons (.s "name") (.str "ld1") .nil)),
      (100, .cons (.s "clock") (.str "clock") .nil),
      (101, .cons (.s "module") (.str "powerflow") .nil),
      (102, .cons (.s "object") (.str "load") (.cons (.s "name") (.str "ld1") .nil)),
      (103, .cons (.s "object") (.str "load") (.cons (.s "name") (.str "ld9") .nil))],
    modelDict := [(0, 0), (1, 1), (2, 2)],
    clockMap := some (0, 0),
    moduleMap := [(.str "powerflow", (1, 1))],
    objectMap := [(.str "load", [(.str "ld1", (2, 2))])],
    unnamed := [], appendKey := 3, prependKey := -1 }

/-! ## Coercion and association-list lemmas -/

theorem coerce_strDict (d : Val) (h : strDict d = true) : coerceEntries d = (d, none) := by
  induction d with
  | nil => rfl
  | str v => simp [strDict] at h
  | float3600 => simp [strDict] at h
  | cons k v rest ihv ihr =>
    cases k with
    | i n => simp [strDict] at h
    | s ks =>
      cases v with
      | str vs =>
        simp only [strDict] at h
        simp only [coerceEntries, ihr h, pyStr]
      | float3600 => simp [strDict] at h
      | nil => simp [strDict] at h
      | cons a b c => simp [strDict] at h

theorem alSet_same {κ α : Type} [DecidableEq κ] (l : List (κ × α)) (key : κ) (v : α)
    (h : alGet? l key = some v) : alSet l key v = l := by
  induction l with
  | nil => cases h
  | cons p rest ih =>
    obtain ⟨k2, v2⟩ := p
    by_cases hk : k2 = key
    · subst hk
      simp only [alGet?, if_pos rfl] at h
      injection h with h
      subst h
      simp [alSet]
    · simp only [alGet?, if_neg hk] at h
      simp [alSet, hk, ih h]

theorem alGet_alSet {κ α : Type} [DecidableEq κ] (l : List (κ × α)) (k k2 : κ) (v : α) :
    alGet? (alSet l k v) k2 = if k2 = k then some v else alGet? l k2 := by
  induction l with
  | nil =>
    simp only [alSet, alGet?]
    by_cases hk : k2 = k
    · subst hk; simp
    · have hk2 : ¬ (k = k2) := fun e => hk e.symm
      rw [if_neg hk2, if_neg hk]
  | cons p rest ih =>
    obtain ⟨k3, v3⟩ := p
    by_cases h3 : k3 = k
    · subst h3
      simp only [alSet, if_pos rfl, alGet?]
      by_cases hk : k3 = k2
      · subst hk; simp
      · have hk2 : ¬ (k2 = k3) := fun e => hk e.symm
        rw [if_neg hk, if_neg hk2, if_neg hk]
    · simp only [alSet, if_neg h3, alGet?]
      by_cases hk23 : k3 = k2
      · subst hk23
        simp [h3]
      · rw [if_neg hk23, ih]
        by_cases hxk : k2 = k <;> simp [hxk, hk23]

/-! ## Frame lemmas for the map builders -/

theorem addClockToMap_frame (st : MState) (k : Int) (a : Nat) (out : MState)
    (e : Option PyErr) (h : addClockToMap st k a = (out, e)) :
    out.heap = st.heap ∧ out.modelDict = st.modelDict ∧ out.moduleMap = st.moduleMap ∧
    out.objectMap = st.objectMap ∧ out.unnamed = st.unnamed ∧
    out.appendKey = st.appendKey ∧ out.prependKey = st.prependKey := by
  unfold addClockToMap at h
  split at h <;>
    (injection h with h1 h2; subst h1; exact ⟨rfl, rfl, rfl, rfl, rfl, rfl, rfl⟩)

theorem addModuleToMap_frame (st : MState) (k : Int) (a : Nat) (out : MState)
    (e : Option PyErr) (h : addModuleToMap st k a = (out, e)) :
    out.heap = st.heap ∧ out.modelDict = st.modelDict ∧ out.clockMap = st.clockMap ∧
    out.objectMap = st.objectMap ∧ out.unnamed = st.unnamed ∧
    out.appendKey = st.appendKey ∧ out.prependKey = st.prependKey := by
  unfold addModuleToMap at h
  cases hg : alGet? st.heap a with
  | none =>
    simp only [hg] at h
    injection h with h1 h2
    subst h1
    exact ⟨rfl, rfl, rfl, rfl, rfl, rfl, rfl⟩
  | some d =>
    simp only [hg] at h
    cases hm : moduleNameOf d with
    | error e2 =>
      simp only [hm] at h
      injection h with h1 h2
      subst h1
      exact ⟨rfl, rfl, rfl, rfl, rfl, rfl, rfl⟩
    | ok nm =>
      simp only [hm] at h
      by_cases hh : valHashable nm = true
      · have hc : ¬ (¬ valHashable nm = true) := by simp [hh]
        rw [if_neg hc] at h
        by_cases hdup : (alGet? st.moduleMap nm).isSome = true
        · rw [if_pos hdup] at h
          injection h with h1 h2
          subst h1
          exact ⟨rfl, rfl, rfl, rfl, rfl, rfl, rfl⟩
        · rw [if_neg hdup] at h
          injection h with h1 h2
          subst h1
          exact ⟨rfl, rfl, rfl, rfl, rfl, rfl, rfl⟩
      · rw [if_pos hh] at h
        injection h with h1 h2
        subst h1
        exact ⟨rfl, rfl, rfl, rfl, rfl, rfl, rfl⟩

theorem ensureTypeEntry_frame (st : MState) (ty : Val) :
    (ensureTypeEntry st ty).heap = st.heap ∧
    (ensureTypeEntry st ty).modelDict = st.modelDict ∧
    (ensureTypeEntry st ty).clockMap = st.clockMap ∧
    (ensureTypeEntry st ty).moduleMap = st.moduleMap ∧
    (ensureTypeEntry st ty).appendKey = st.appendKey ∧
    (ensureTypeEntry st ty).prependKey = st.prependKey := by
  unfold ensureTypeEntry
  split <;> exact ⟨rfl, rfl, rfl, rfl, rfl, rfl⟩

theorem addObjectToMap_frame (st : MState) (k : Int) (a : Nat) (out : MState)
    (e : Option PyErr) (h : addObjectToMap st k a = (out, e)) :
    out.heap = st.heap ∧ out.modelDict = st.modelDict ∧ out.clockMap = st.clockMap ∧
    out.moduleMap = st.moduleMap ∧
    out.appendKey = st.appendKey ∧ out.prependKey = st.prependKey := by
  unfold addObjectToMap at h
  cases hg : alGet? st.heap a with
  | none =>
    simp only [hg] at h
    injection h with h1 h2
    subst h1
    exact ⟨rfl, rfl, rfl, rfl, rfl, rfl⟩
  | some d =>
    simp only [hg] at h
    cases hty : dGet? d "object" with
    | none =>
      simp only [hty] at h
      injection h with h1 h2
      subst h1
      exact ⟨rfl, rfl, rfl, rfl, rfl, rfl⟩
    | some ty =>
      simp only [hty] at h
      obtain ⟨e1, e2, e3, e4, e5, e6⟩ := ensureTypeEntry_frame st ty
      by_cases hh : valHashable ty = true
      · have hc : ¬ (¬ valHashable ty = true) := by simp [hh]
        rw [if_neg hc] at h
        cases hnm : dGet? d "name" with
        | none =>
          simp only [hnm] at h
          injection h with h1 h2
          subst h1
          exact ⟨e1, e2, e3, e4, e5, e6⟩
        | some nm =>
          simp only [hnm] at h
          by_cases hh2 : valHashable nm = true
          · have hc2 : ¬ (¬ valHashable nm = true) := by simp [hh2]
            rw [if_neg hc2] at h
            by_cases hdup : (alGet? (tyMapOf (ensureTypeEntry st ty) ty) nm).isSome = true
            · rw [if_pos hdup] at h
              injection h with h1 h2
              subst h1
              exact ⟨e1, e2, e3, e4, e5, e6⟩
            · rw [if_neg hdup] at h
              injection h with h1 h2
              subst h1
              exact ⟨e1, e2, e3, e4, e5, e6⟩
          · rw [if_pos hh2] at h
            injection h with h1 h2
            subst h1
            exact ⟨e1, e2, e3, e4, e5, e6⟩
      · rw [if_pos hh] at h
        injection h with h1 h2
        subst h1
        exact ⟨rfl, rfl, rfl, rfl, rfl, rfl⟩

theorem getItemType_vals (d : Val) (t : String) (h : getItemType d = .ok t) :
    t = "object" ∨ t = "module" ∨ t = "clock" ∨ t = "include" ∨ t = "set"
      ∨ t = "omftype" := by
  unfold getItemType at h
  by_cases h1 : dHas d "object" = true
  · rw [if_pos h1] at h; injection h with h; subst h; simp
  · rw [if_neg h1] at h
    by_cases h2 : dHas d "module" = true
    · rw [if_pos h2] at h; injection h with h; subst h; simp
    · rw [if_neg h2] at h
      by_cases h3 : dHas d "clock" = true
      · rw [if_pos h3] at h; injection h with h; subst h; simp
      · rw [if_neg h3] at h
        by_cases h4 : dHas d "#include" = true
        · rw [if_pos h4] at h; injection h with h; subst h; simp
        · rw [if_neg h4] at h
          by_cases h5 : dHas d "#set" = true
          · rw [if_pos h5] at h; injection h with h; subst h; simp
          · rw [if_neg h5] at h
            by_cases h6 : dHas d "omftype" = true
            · rw [if_pos h6] at h; injection h with h; subst h; simp
            · rw [if_neg h6] at h; cases h

theorem nonObjectMapStep_frame (st : MState) (t : String) (a : Nat) (out : MState)
    (e : Option PyErr) (h : nonObjectMapStep st t a = (out, e)) :
    out.heap = st.heap ∧ out.modelDict = st.modelDict ∧
    out.appendKey = st.appendKey ∧ out.prependKey = st.prependKey ∧
    out.objectMap = st.objectMap := by
  unfold nonObjectMapStep at h
  by_cases h1 : t = "clock"
  · rw [if_pos h1] at h
    obtain ⟨x1, x2, x3, x4, x5, x6, x7⟩ := addClockToMap_frame st st.prependKey a out e h
    exact ⟨x1, x2, x6, x7, x4⟩
  · rw [if_neg h1] at h
    by_cases h2 : t = "module"
    · rw [if_pos h2] at h
      obtain ⟨x1, x2, x3, x4, x5, x6, x7⟩ := addModuleToMap_frame st st.prependKey a out e h
      exact ⟨x1, x2, x6, x7, x4⟩
    · rw [if_neg h2] at h
      by_cases h3 : (t = "set" ∨ t = "include")
      · rw [if_pos h3] at h
        injection h with hA hB
        subst hA
        exact ⟨rfl, rfl, rfl, rfl, rfl⟩
      · rw [if_neg h3] at h
        injection h with hA hB
        subst hA
        exact ⟨rfl, rfl, rfl, rfl, rfl⟩

/-! ## Claim theorems -/

/-- C1: the round-trip claim fails as stated, in two independent ways.
First, the module docstring's own clock example parses to a clock item
with a field `clockey = valley`; serializing and re-parsing yields a tree
with the same item count but without that field, although `valley` is
colon-free, hyphen-free and far below the 62-character truncation limit:
the clock serializer only ever emits `timezone`/`starttime`/`stoptime`.
Second, even the item count is not preserved in general: an object with a
`comment` field parses fine, but the serializer writes the field verbatim
on a bare line, and re-parsing that output fails outright (the bare token
forms a two-element statement, on which `list_to_string` raises). -/
theorem c1_roundtrip_counterexample :
    parse clockyTxt =
      some (.cons (.i 0) (.cons (.s "clock") (.str "clock")
        (.cons (.s "clockey") (.str "valley") .nil)) .nil) ∧
    ((parse clockyTxt).bind sortedWrite) = some "clock \x7b\n\x7d\n\n" ∧
    (((parse clockyTxt).bind sortedWrite).bind parse) =
      some (.cons (.i 0) (.cons (.s "clock") (.str "clock") .nil) .nil) ∧
    (((parse clockyTxt).bind sortedWrite).bind parse).map dSize
      = (parse clockyTxt).map dSize ∧
    parse commentTxt =
      some (.cons (.i 0) (.cons (.s "object") (.str "foo")
        (.cons (.s "name") (.str "f1")
          (.cons (.s "comment") (.str "bar") .nil))) .nil) ∧
    ((parse commentTxt).bind sortedWrite)
      = some "object foo \x7b\n\tname f1;\nbar\n\x7d;\n\n" ∧
    (((parse commentTxt).bind sortedWrite).bind parse) = none := by
  refine ⟨?_, ?_, ?_, ?_, ?_, ?_, ?_⟩ <;> decide

/-- C1 (amended): for the representative model `rtModelTxt` - a module, a
clock carrying exactly the standard `timezone`/`starttime`/`stoptime`
trio, a `#set` directive and a named object, each item serializing every
field it carries - re-parsing the serialized output reproduces the parsed
tree exactly.  (No more than this concrete model is claimed: the
counterexamples show the round trip fails in general, even on item
count.) -/
theorem c1_roundtrip_amended :
    (parse rtModelTxt).isSome = true ∧
    (((parse rtModelTxt).bind sortedWrite).bind parse) = parse rtModelTxt := by
  exact ⟨by decide, by decide⟩

/-- C2: the legacy-normalization post-pass deletes `recorder`,
`group_recorder` and `collector` objects rather than retaining them.  Each
such single-object model tokenizes and tree-builds to one entry, but
`parse` returns the empty tree. -/
theorem c2_recorder_deleted :
    tokenParse recorderTxt =
      some (.cons (.i 0) (.cons (.s "object") (.str "recorder")
        (.cons (.s "name") (.str "r1") .nil)) .nil) ∧
    parse recorderTxt = some .nil ∧
    parse groupRecTxt = some .nil ∧
    parse collectorTxt = some .nil := by
  refine ⟨?_, ?_, ?_, ?_⟩ <;> decide

/-- C5: nested objects are not registered as top-level tree entries, and
models containing them do not even survive parsing.  On the module
docstring's own nested example the tree builder stores the `ZIPload` child
inside the parent entry (under its guid, key 1) and creates no top-level
entry for it, and the legacy post-pass then raises (`str.replace` called
on the nested dict value), so `parse` fails; moreover on a hand-built tree
with a nested named child, `_map_model_dict` succeeds but indexes only the
parent: the child's (type, name) is not retrievable. -/
theorem c5_nested_objects_unregistered :
    (tokenParse nestedTxt).map dSize = some 1 ∧
    (tokenParse nestedTxt).map (fun t => (dGetK? t (.i 1)).isSome) = some false ∧
    (tokenParse nestedTxt).map (fun t =>
      (dGetK? ((dGetK? t (.i 0)).getD .nil) (.i 1)).isSome) = some true ∧
    parse nestedTxt = none ∧
    (mkManager nestedTree).map (fun p =>
      (p.2 = none : Bool) && (alGet? p.1.objectMap (.str "ZIPload")).isNone
        && (alGet? p.1.objectMap (.str "house")).isSome) = some true := by
  refine ⟨?_, ?_, ?_, ?_, ?_⟩ <;> decide

/-- C7: the claim fails as stated: the fuse default is stored as the float
`3600.0` (the only non-string value in the tree), not as the text
`"3600.0"`; the serializer later renders it as the text `3600.0`. -/
theorem c7_fuse_default_is_float :
    (do
      let t ← parse fuseTxt
      let d ← dGetK? t (.i 0)
      dGet? d "mean_replacement_time") = some Val.float3600 ∧
    Val.float3600 ≠ Val.str "3600.0" ∧
    ((parse fuseTxt).bind sortedWrite) =
      some "object fuse \x7b\n\tname f1;\n\tphases ABC;\n\tmean_replacement_time 3600.0;\n\x7d;\n\n" := by
  refine ⟨?_, ?_, ?_⟩ <;> decide


/-- C9: for every clock item (a dict with a `clock` key and neither of the
keys `omftype` / `module` that take serializer precedence), the serializer
emits exactly the optional `timezone`, `starttime`, `stoptime` renderings,
in that order, inside `clock { ... }`; by definition of `clockField?` each
present field renders as a tab-indented `<field> <value>;` line and every
other field of the item is ignored. -/
theorem c9_clock_serializer_fixed_fields (fuel : Nat) (d : Val) (tz st sp : String)
    (hdict : isDict d = true)
    (h1 : dHas d "omftype" = false)
    (h2 : dHas d "module" = false)
    (h3 : dHas d "clock" = true)
    (htz : clockField? d "timezone" = some tz)
    (hst : clockField? d "starttime" = some st)
    (hsp : clockField? d "stoptime" = some sp) :
    dictToStringF (fuel + 1) d
      = some ("clock \x7b\n" ++ tz ++ st ++ sp ++ "\x7d\n") := by
  simp only [dictToStringF, hdict, h1, h2, h3, htz, hst, hsp]
  simp

/-- Witness for C9 at a clock item with an extra field `foo`, the trio
stored out of order and `starttime` absent. -/
theorem c9_clock_serializer_fixed_fields_witness :
    (isDict clockItemW = true ∧ dHas clockItemW "clock" = true
      ∧ dHas clockItemW "foo" = true) ∧
    dictToStringF 1 clockItemW
      = some ("clock \x7b\n" ++ "\ttimezone T;\n" ++ "" ++ "\tstoptime S;\n" ++ "\x7d\n") :=
  ⟨by decide,
    c9_clock_serializer_fixed_fields 0 clockItemW "\ttimezone T;\n" "" "\tstoptime S;\n"
      (by decide) (by decide) (by decide) (by decide) (by decide) (by decide) (by decide)⟩

/-- C3: the atomicity claim fails.  On a state with the object
(`house`, `h1`) carrying a `phases` field, removing `[phases, nope]`
raises the not-found error for `nope`, but `phases` is already gone from
the shared item - the tree (and index) view of the item changed although
the call failed. -/
theorem c3_remove_not_atomic_counterexample :
    (removePropsFromItem c3State 1 ["phases", "nope"]).2
      = some (.userWarning "Could not remove nonexistent field nope") ∧
    alGet? (removePropsFromItem c3State 1 ["phases", "nope"]).1.heap 0
      = some (.cons (.s "object") (.str "house") (.cons (.s "name") (.str "h1") .nil)) ∧
    alGet? c3State.heap 0
      = some (.cons (.s "object") (.str "house")
          (.cons (.s "name") (.str "h1") (.cons (.s "phases") (.str "ABC") .nil))) := by
  refine ⟨?_, ?_, ?_⟩ <;> decide

/-- C3 (amended): when `remove_properties_from_item` fails because a listed
field is missing, every field listed before the first missing one has
already been removed from the shared target item (visible through tree and
index alike, which alias it), the missing field is named in the error, and
the fields from the missing one onward are untouched; the tree keys and
the index maps themselves are unchanged. -/
theorem c3_remove_partial_amended (st : MState) (a : Nat) (d ty nm : Val)
    (k : Int) (ta : Nat) (td td2 : Val) (pre : List String) (p : String)
    (post : List String)
    (hd : alGet? st.heap a = some d)
    (ht : getItemType d = .ok "object")
    (hname : dHas d "name" = true)
    (hty : dGet? d "object" = some ty)
    (hnm : dGet? d "name" = some nm)
    (hlook : lookupObject st ty nm = .ok (k, ta))
    (htd : alGet? st.heap ta = some td)
    (hpre : removeFields td pre = (td2, none))
    (hmiss : dHas td2 p = false) :
    removePropsFromItem st a (pre ++ p :: post)
      = ({ st with heap := alSet st.heap ta td2 },
          some (.userWarning ("Could not remove nonexistent field " ++ p))) := by
  unfold removePropsFromItem removeTarget
  simp only [hd, ht, hname, hty, hnm, hlook, htd, Bool.not_eq_true,
    removeFields_first_missing pre td td2 p post hpre hmiss]
  simp
  rw [htd]
  simp only [removeFields_first_missing pre td td2 p post hpre hmiss]

/-- Witness for the amended C3 theorem at the concrete state. -/
theorem c3_remove_partial_amended_witness :
    removePropsFromItem c3State 1 (["phases"] ++ "nope" :: [])
      = ({ c3State with
            heap := alSet c3State.heap 0
              (Val.cons (.s "object") (.str "house")
                (Val.cons (.s "name") (.str "h1") Val.nil)) },
          some (.userWarning ("Could not remove nonexistent field " ++ "nope"))) :=
  c3_remove_partial_amended c3State 1
    (.cons (.s "object") (.str "house") (.cons (.s "name") (.str "h1") .nil))
    (.str "house") (.str "h1") 5 0
    (.cons (.s "object") (.str "house")
      (.cons (.s "name") (.str "h1") (.cons (.s "phases") (.str "ABC") .nil)))
    (.cons (.s "object") (.str "house") (.cons (.s "name") (.str "h1") .nil))
    ["phases"] "nope" []
    rfl rfl rfl rfl rfl rfl rfl rfl rfl


/-- C4: each of the three uniqueness violations raises the duplicate
error: a second clock, an object whose (type, name) pair is indexed, a
module whose name is indexed.  The state is returned unchanged together
with the raised error. -/
theorem c4_duplicate_errors :
    (∀ (st : MState) (a : Nat) (d : Val) (c : Int × Nat),
      alGet? st.heap a = some d → getItemType d = .ok "clock" →
      strDict d = true → st.clockMap = some c →
      addItem st a = (st, some (.userWarning "Multiple clocks defined!"))) ∧
    (∀ (st : MState) (a : Nat) (d : Val) (ty nm : String)
        (tyMap : List (Val × (Int × Nat))) (e : Int × Nat),
      alGet? st.heap a = some d → getItemType d = .ok "object" →
      strDict d = true →
      dGet? d "object" = some (.str ty) → dGet? d "name" = some (.str nm) →
      alGet? st.objectMap (.str ty) = some tyMap →
      alGet? tyMap (.str nm) = some e →
      addItem st a = (st, some (.userWarning
        (nm ++ " already exists in the " ++ ty ++ " map!")))) ∧
    (∀ (st : MState) (a : Nat) (d : Val) (nm : String) (e : Int × Nat),
      alGet? st.heap a = some d → getItemType d = .ok "module" →
      strDict d = true →
      dGet? d "module" = some (.str nm) →
      alGet? st.moduleMap (.str nm) = some e →
      addItem st a = (st, some (.userWarning
        ("Module " ++ nm ++ " is already present!")))) := by
  refine ⟨?_, ?_, ?_⟩
  · intro st a d c hd ht hsd hc
    unfold addItem
    simp only [hd, ht, coerce_strDict d hsd, alSet_same st.heap a d hd]
    have hrw : ({ st with heap := st.heap } : MState) = st := rfl
    rw [hrw]
    unfold addNonObject nonObjectMapStep addClockToMap
    rw [hc]
    simp
  · intro st a d ty nm tyMap e hd ht hsd hty hnm htyMap he
    unfold addItem
    simp only [hd, ht, coerce_strDict d hsd, alSet_same st.heap a d hd]
    have hrw : ({ st with heap := st.heap } : MState) = st := rfl
    rw [hrw]
    unfold addObjectM addObjectToMap tyMapOf
    have hens : ensureTypeEntry st (Val.str ty) = st := by
      unfold ensureTypeEntry
      rw [htyMap]
      simp
    simp only [hd, hty, hnm, hens, htyMap, Option.getD_some, he, Option.isSome_some,
      valHashable, pyStr]
    simp
  · intro st a d nm e hd ht hsd hnm he
    unfold addItem
    simp only [hd, ht, coerce_strDict d hsd, alSet_same st.heap a d hd]
    have hrw : ({ st with heap := st.heap } : MState) = st := rfl
    rw [hrw]
    unfold addNonObject nonObjectMapStep addModuleToMap moduleNameOf
    have hhas : dHas d "module" = true := by rw [dHas, hnm]; rfl
    simp only [hd, hhas, hnm, Option.isSome_some, valHashable, pyStr]
    simp
    rw [he]
    simp

/-- Witness for C4 on the concrete populated state: adding a second clock,
a duplicate (load, ld1) object, and a duplicate powerflow module each
raise the corresponding duplicate error and leave the state unchanged. -/
theorem c4_duplicate_errors_witness :
    addItem c4State 100 = (c4State, some (.userWarning "Multiple clocks defined!")) ∧
    addItem c4State 102 = (c4State, some (.userWarning
      ("ld1" ++ " already exists in the " ++ "load" ++ " map!"))) ∧
    addItem c4State 101 = (c4State, some (.userWarning
      ("Module " ++ "powerflow" ++ " is already present!"))) :=
  ⟨c4_duplicate_errors.1 c4State 100
      (.cons (.s "clock") (.str "clock") .nil) (0, 0) rfl rfl rfl rfl,
   c4_duplicate_errors.2.1 c4State 102
      (.cons (.s "object") (.str "load") (.cons (.s "name") (.str "ld1") .nil))
      "load" "ld1" [(.str "ld1", (2, 2))] (2, 2) rfl rfl rfl rfl rfl rfl rfl,
   c4_duplicate_errors.2.2 c4State 101
      (.cons (.s "module") (.str "powerflow") .nil) "powerflow" (1, 1)
      rfl rfl rfl rfl rfl⟩


/-- C10: `add_item` and `modify_item` mutate the caller-supplied dict in
place.  The coercion loop overwrites every string-keyed value with its
`str()` rendering; on success the tree stores the very address of the
caller dict (at `append_key` for objects, at `prepend_key` for the
non-object kinds); and `modify_item` pops the identity keys (`object` and
`name`, or `clock`, or `module`) from the caller dict before the update is
applied, whether or not the rest of the call succeeds (provided the target
is a different dict). -/
theorem c10_inplace_mutation :
    (∀ (d : Val) (k : String) (v : Val),
      dGetK? d (PKey.s k) = some v → (coerceEntries d).2 = none →
      dGetK? (coerceEntries d).1 (PKey.s k) = some (.str (pyStr v))) ∧
    (∀ (st : MState) (a : Nat) (d : Val) (t : String) (st2 : MState),
      alGet? st.heap a = some d → getItemType d = .ok t →
      addItem st a = (st2, none) →
      alGet? st2.heap a = some (coerceEntries d).1 ∧
      (t = "object" → alGet? st2.modelDict st.appendKey = some a) ∧
      ((t = "clock" ∨ t = "module" ∨ t = "include" ∨ t = "set") →
        alGet? st2.modelDict st.prependKey = some a)) ∧
    (∀ (st : MState) (a : Nat) (d d1 d2 ty nm : Val) (st2 : MState) (e : Option PyErr),
      alGet? st.heap a = some d → getItemType d = .ok "object" →
      dHas d "name" = true →
      dGet? d "object" = some ty → dPopK? d (PKey.s "object") = some d1 →
      dGet? d1 "name" = some nm → dPopK? d1 (PKey.s "name") = some d2 →
      (∀ (k : Int) (ta : Nat),
        lookupObject { st with heap := alSet st.heap a d2 } ty nm = .ok (k, ta) → ta ≠ a) →
      modifyItem st a = (st2, e) →
      alGet? st2.heap a = some d2) ∧
    (∀ (st : MState) (a : Nat) (d d1 : Val) (st2 : MState) (e : Option PyErr),
      alGet? st.heap a = some d → getItemType d = .ok "clock" →
      dPopK? d (PKey.s "clock") = some d1 →
      (∀ (k : Int) (ta : Nat), st.clockMap = some (k, ta) → ta ≠ a) →
      modifyItem st a = (st2, e) →
      alGet? st2.heap a = some d1) ∧
    (∀ (st : MState) (a : Nat) (d d1 nm : Val) (st2 : MState) (e : Option PyErr),
      alGet? st.heap a = some d → getItemType d = .ok "module" →
      dGet? d "module" = some nm → dPopK? d (PKey.s "module") = some d1 →
      (∀ (k : Int) (ta : Nat), alGet? st.moduleMap nm = some (k, ta) → ta ≠ a) →
      modifyItem st a = (st2, e) →
      alGet? st2.heap a = some d1) := by
  refine ⟨?_, ?_, ?_, ?_, ?_⟩
  · -- the coercion characterization
    intro d
    induction d with
    | str w => intro k v hg; cases hg
    | float3600 => intro k v hg; cases hg
    | nil => intro k v hg; cases hg
    | cons k1 v1 rest ihv ihr =>
      intro k v hg he
      cases k1 with
      | i n => simp [coerceEntries] at he
      | s ks =>
        simp only [coerceEntries] at he ⊢
        by_cases hk : ks = k
        · subst hk
          simp only [dGetK?, if_pos rfl] at hg ⊢
          injection hg with hg
          subst hg
          rfl
        · have hne : (PKey.s ks) ≠ (PKey.s k) := by
            intro hcon
            injection hcon with hcon
            exact hk hcon
          simp only [dGetK?, if_neg hne] at hg ⊢
          exact ihr k v hg he
  · -- add_item stores the caller dict itself
    intro st a d t st2 hd ht h
    unfold addItem at h
    simp only [hd, ht] at h
    cases hco : coerceEntries d with
    | mk d2 e2 =>
      cases e2 with
      | some e3 => simp only [hco] at h; cases h
      | none =>
        simp only [hco] at h
        rcases getItemType_vals d t ht with hv | hv | hv | hv | hv | hv <;> subst hv
        · -- object
          simp only [reduceIte] at h
          unfold addObjectM at h
          cases hmo : addObjectToMap { st with heap := alSet st.heap a d2 }
              ({ st with heap := alSet st.heap a d2 } : MState).appendKey a with
          | mk st1 e3 =>
            obtain ⟨f1, f2, f3, f4, f5, f6⟩ :=
              addObjectToMap_frame _ _ _ _ _ hmo
            cases e3 with
            | some e4 => simp only [hmo] at h; cases h
            | none =>
              simp only [hmo] at h
              injection h with h1 h2
              subst h1
              refine ⟨?_, ?_, ?_⟩
              · show alGet? st1.heap a = some d2
                rw [f1]
                simp [alGet_alSet]
              · intro hobj
                show alGet? (alSet st1.modelDict st1.appendKey a) st.appendKey = some a
                rw [f2, f5]
                simp [alGet_alSet]
              · intro hor
                rcases hor with hx | hx | hx | hx <;> simp at hx
        · -- module
          simp only [reduceIte] at h
          unfold addNonObject at h
          cases hms : nonObjectMapStep { st with heap := alSet st.heap a d2 } "module" a with
          | mk st1 e3 =>
            obtain ⟨f1, f2, f3, f4, f5⟩ := nonObjectMapStep_frame _ _ _ _ _ hms
            cases e3 with
            | some e4 => simp only [hms] at h; cases h
            | none =>
              simp only [hms] at h
              injection h with h1 h2
              subst h1
              refine ⟨?_, ?_, ?_⟩
              · show alGet? st1.heap a = some d2
                rw [f1]
                simp [alGet_alSet]
              · intro hx; simp at hx
              · intro hor
                show alGet? (alSet st1.modelDict st1.prependKey a) st.prependKey = some a
                rw [f2, f4]
                simp [alGet_alSet]
        · -- clock
          simp only [reduceIte] at h
          unfold addNonObject at h
          cases hms : nonObjectMapStep { st with heap := alSet st.heap a d2 } "clock" a with
          | mk st1 e3 =>
            obtain ⟨f1, f2, f3, f4, f5⟩ := nonObjectMapStep_frame _ _ _ _ _ hms
            cases e3 with
            | some e4 => simp only [hms] at h; cases h
            | none =>
              simp only [hms] at h
              injection h with h1 h2
              subst h1
              refine ⟨?_, ?_, ?_⟩
              · show alGet? st1.heap a = some d2
                rw [f1]
                simp [alGet_alSet]
              · intro hx; simp at hx
              · intro hor
                show alGet? (alSet st1.modelDict st1.prependKey a) st.prependKey = some a
                rw [f2, f4]
                simp [alGet_alSet]
        · -- include
          simp only [reduceIte] at h
          unfold addNonObject at h
          cases hms : nonObjectMapStep { st with heap := alSet st.heap a d2 } "include" a with
          | mk st1 e3 =>
            obtain ⟨f1, f2, f3, f4, f5⟩ := nonObjectMapStep_frame _ _ _ _ _ hms
            cases e3 with
            | some e4 => simp only [hms] at h; cases h
            | none =>
              simp only [hms] at h
              injection h with h1 h2
              subst h1
              refine ⟨?_, ?_, ?_⟩
              · show alGet? st1.heap a = some d2
                rw [f1]
                simp [alGet_alSet]
              · intro hx; simp at hx
              · intro hor
                show alGet? (alSet st1.modelDict st1.prependKey a) st.prependKey = some a
                rw [f2, f4]
                simp [alGet_alSet]
        · -- set
          simp only [reduceIte] at h
          unfold addNonObject at h
          cases hms : nonObjectMapStep { st with heap := alSet st.heap a d2 } "set" a with
          | mk st1 e3 =>
            obtain ⟨f1, f2, f3, f4, f5⟩ := nonObjectMapStep_frame _ _ _ _ _ hms
            cases e3 with
            | some e4 => simp only [hms] at h; cases h
            | none =>
              simp only [hms] at h
              injection h with h1 h2
              subst h1
              refine ⟨?_, ?_, ?_⟩
              · show alGet? st1.heap a = some d2
                rw [f1]
                simp [alGet_alSet]
              · intro hx; simp at hx
              · intro hor
                show alGet? (alSet st1.modelDict st1.prependKey a) st.prependKey = some a
                rw [f2, f4]
                simp [alGet_alSet]
        · -- omftype: the non-object step always raises, success impossible
          simp only [reduceIte] at h
          unfold addNonObject at h
          cases hms : nonObjectMapStep { st with heap := alSet st.heap a d2 } "omftype" a with
          | mk st1 e3 =>
            have : e3 = some (.userWarning ("No add method for " ++ "omftype"
                ++ " item type.")) := by
              unfold nonObjectMapStep at hms
              simp at hms
              exact hms.2.symm
            subst this
            simp only [hms] at h
            cases h
  · -- modify_item on an object pops `object` and `name` from the caller dict
    intro st a d d1 d2 ty nm st2 e hd ht hname hty hp1 hnm hp2 hta h
    unfold modifyItem at h
    simp only [hd, ht, hname, hty, hp1, hnm, hp2, Bool.not_eq_true, reduceIte] at h
    cases hlk : lookupObject { st with heap := alSet st.heap a d2 } ty nm with
    | error e2 =>
      simp only [hlk] at h
      injection h with h1 h2
      subst h1
      simp [alGet_alSet]
    | ok ka =>
      obtain ⟨k, ta⟩ := ka
      have hne : ta ≠ a := hta k ta hlk
      simp only [hlk] at h
      cases htd : alGet? (alSet st.heap a d2) ta with
      | none =>
        simp only [htd] at h
        injection h with h1 h2
        subst h1
        simp [alGet_alSet]
      | some td =>
        simp only [htd] at h
        injection h with h1 h2
        subst h1
        show alGet? (alSet (alSet st.heap a d2) ta _) a = some d2
        rw [alGet_alSet]
        rw [if_neg (fun ee => hne ee.symm)]
        simp [alGet_alSet]
  · -- modify_item on the clock pops `clock` from the caller dict
    intro st a d d1 st2 e hd ht hp1 hta h
    unfold modifyItem at h
    simp only [hd, ht, hp1, reduceIte, reduceCtorEq] at h
    cases hc : st.clockMap with
    | none =>
      simp only [hc] at h
      injection h with h1 h2
      subst h1
      simp [alGet_alSet]
    | some ka =>
      obtain ⟨k, ta⟩ := ka
      have hne : ta ≠ a := hta k ta hc
      simp only [hc] at h
      cases htd : alGet? (alSet st.heap a d1) ta with
      | none =>
        simp only [htd] at h
        injection h with h1 h2
        subst h1
        simp [alGet_alSet]
      | some td =>
        simp only [htd] at h
        injection h with h1 h2
        subst h1
        show alGet? (alSet (alSet st.heap a d1) ta _) a = some d1
        rw [alGet_alSet]
        rw [if_neg (fun ee => hne ee.symm)]
        simp [alGet_alSet]
  · -- modify_item on a module pops `module` from the caller dict
    intro st a d d1 nm st2 e hd ht hnm hp1 hta h
    unfold modifyItem at h
    simp only [hd, ht, hnm, hp1, reduceIte, reduceCtorEq] at h
    by_cases hh : valHashable nm = true
    · have hcnd : ¬ (¬ valHashable nm = true) := by simp [hh]
      rw [if_neg hcnd] at h
      cases hm : alGet? st.moduleMap nm with
      | none =>
        simp only [hm] at h
        injection h with h1 h2
        subst h1
        simp [alGet_alSet]
      | some ka =>
        obtain ⟨k, ta⟩ := ka
        have hne : ta ≠ a := hta k ta hm
        simp only [hm] at h
        cases htd : alGet? (alSet st.heap a d1) ta with
        | none =>
          simp only [htd] at h
          injection h with h1 h2
          subst h1
          simp [alGet_alSet]
        | some td =>
          simp only [htd] at h
          cases hcv : omfModuleConv td with
          | error e2 =>
            simp only [hcv] at h
            injection h with h1 h2
            subst h1
            simp [alGet_alSet]
          | ok tdc =>
            simp only [hcv] at h
            injection h with h1 h2
            subst h1
            show alGet? (alSet (alSet st.heap a d1) ta _) a = some d1
            rw [alGet_alSet]
            rw [if_neg (fun ee => hne ee.symm)]
            simp [alGet_alSet]
    · rw [if_pos hh] at h
      injection h with h1 h2
      subst h1
      simp [alGet_alSet]


theorem c10_inplace_mutation_witness :
    dGetK? (coerceEntries (Val.cons (PKey.s "a") Val.float3600 Val.nil)).1 (PKey.s "a")
        = some (Val.str (pyStr Val.float3600)) ∧
    alGet? (addItem c4State 103).1.heap 103
        = some (coerceEntries (Val.cons (PKey.s "object") (Val.str "load")
            (Val.cons (PKey.s "name") (Val.str "ld9") Val.nil))).1 ∧
    alGet? (modifyItem c4State 102).1.heap 102 = some Val.nil ∧
    alGet? (modifyItem c4State 100).1.heap 100 = some Val.nil ∧
    alGet? (modifyItem c4State 101).1.heap 101 = some Val.nil := by
  refine ⟨?_, ?_, ?_, ?_, ?_⟩
  · exact c10_inplace_mutation.1 (Val.cons (PKey.s "a") Val.float3600 Val.nil)
      "a" Val.float3600 (by decide) (by rfl)
  · exact (c10_inplace_mutation.2.1 c4State 103
      (Val.cons (PKey.s "object") (Val.str "load")
        (Val.cons (PKey.s "name") (Val.str "ld9") Val.nil))
      "object" (addItem c4State 103).1 (by rfl) (by rfl) (by rfl)).1
  · exact c10_inplace_mutation.2.2.1 c4State 102
      (Val.cons (PKey.s "object") (Val.str "load")
        (Val.cons (PKey.s "name") (Val.str "ld1") Val.nil))
      (Val.cons (PKey.s "name") (Val.str "ld1") Val.nil) Val.nil
      (Val.str "load") (Val.str "ld1")
      (modifyItem c4State 102).1 (modifyItem c4State 102).2
      (by rfl) (by rfl) (by decide) (by rfl) (by rfl) (by rfl) (by rfl)
      (fun k ta hk => by
        injection hk with h2
        injection h2 with h1 h2
        subst h1
        subst h2
        decide)
      (by rfl)
  · exact c10_inplace_mutation.2.2.2.1 c4State 100
      (Val.cons (PKey.s "clock") (Val.str "clock") Val.nil) Val.nil
      (modifyItem c4State 100).1 (modifyItem c4State 100).2
      (by rfl) (by rfl) (by rfl)
      (fun k ta hk => by
        injection hk with h2
        injection h2 with h1 h2
        subst h1
        subst h2
        decide)
      (by rfl)
  · exact c10_inplace_mutation.2.2.2.2 c4State 101
      (Val.cons (PKey.s "module") (Val.str "powerflow") Val.nil) Val.nil
      (Val.str "powerflow")
      (modifyItem c4State 101).1 (modifyItem c4State 101).2
      (by rfl) (by rfl) (by rfl) (by rfl)
      (fun k ta hk => by
        injection hk with h2
        injection h2 with h1 h2
        subst h1
        subst h2
        decide)
      (by rfl)


/-! ## Aliasing invariant: every index entry stores the same heap address
as the tree entry at its key, so index and tree views share one object. -/

/-- One index pair `(tree key, heap address)` is aligned when the tree
(`model_dict`) stores that very address at that key. -/
def pairAligned (md : List (Int × Nat)) (p : Int × Nat) : Bool :=
  decide (alGet? md p.1 = some p.2)

/-- All index entries (clock, modules, named objects, unnamed objects) are
aligned with the tree. -/
def aliasOK (st : MState) : Bool :=
  (match st.clockMap with
   | none => true
   | some p => pairAligned st.modelDict p) &&
  st.moduleMap.all (fun q => pairAligned st.modelDict q.2) &&
  st.objectMap.all (fun q => q.2.all (fun r => pairAligned st.modelDict r.2)) &&
  st.unnamed.all (fun p => pairAligned st.modelDict p)

/-- The pairs reachable from the index of a state. -/
def pairIn (st : MState) (p : Int × Nat) : Prop :=
  st.clockMap = some p ∨
  (∃ nm, (nm, p) ∈ st.moduleMap) ∨
  (∃ ty m nm, (ty, m) ∈ st.objectMap ∧ (nm, p) ∈ m) ∨
  p ∈ st.unnamed

theorem alGet_mem {κ α : Type} [DecidableEq κ] (l : List (κ × α)) (k : κ) (v : α)
    (h : alGet? l k = some v) : (k, v) ∈ l := by
  induction l with
  | nil => cases h
  | cons p rest ih =>
    obtain ⟨k2, v2⟩ := p
    by_cases hk : k2 = k
    · subst hk
      simp only [alGet?, if_pos rfl] at h
      injection h with h
      subst h
      exact List.mem_cons_self _ _
    · simp only [alGet?, if_neg hk] at h
      exact List.mem_cons_of_mem _ (ih h)

theorem mem_alSet {κ α : Type} [DecidableEq κ] (l : List (κ × α)) (k : κ) (v : α)
    (q : κ × α) (h : q ∈ alSet l k v) : q ∈ l ∨ q = (k, v) := by
  induction l with
  | nil =>
    simp only [alSet, List.mem_singleton] at h
    exact Or.inr h
  | cons p rest ih =>
    obtain ⟨k2, v2⟩ := p
    by_cases hk : k2 = k
    · subst hk
      have hs : alSet ((k2, v2) :: rest) k2 v = (k2, v) :: rest := by
        simp [alSet]
      rw [hs] at h
      rcases List.mem_cons.mp h with h | h
      · exact Or.inr h
      · exact Or.inl (List.mem_cons_of_mem _ h)
    · have hs : alSet ((k2, v2) :: rest) k v = (k2, v2) :: alSet rest k v := by
        simp [alSet, hk]
      rw [hs] at h
      rcases List.mem_cons.mp h with h | h
      · exact Or.inl (by simp [h])
      · rcases ih h with h2 | h2
        · exact Or.inl (List.mem_cons_of_mem _ h2)
        · exact Or.inr h2

theorem aliasOK_iff (st : MState) :
    aliasOK st = true ↔ ∀ p, pairIn st p → alGet? st.modelDict p.1 = some p.2 := by
  unfold aliasOK pairIn pairAligned
  constructor
  · intro h p hp
    simp only [Bool.and_eq_true, List.all_eq_true, decide_eq_true_eq] at h
    obtain ⟨⟨⟨hc, hm⟩, ho⟩, hu⟩ := h
    rcases hp with hp | ⟨nm, hp⟩ | ⟨ty, m, nm, hm2, hp⟩ | hp
    · rw [hp] at hc
      exact of_decide_eq_true hc
    · exact hm (nm, p) hp
    · exact ho (ty, m) hm2 (nm, p) hp
    · exact hu p hp
  · intro h
    simp only [Bool.and_eq_true, List.all_eq_true, decide_eq_true_eq]
    refine ⟨⟨⟨?_, ?_⟩, ?_⟩, ?_⟩
    · cases hc : st.clockMap with
      | none => rfl
      | some p => exact decide_eq_true (h p (Or.inl hc))
    · intro q hq
      exact h q.2 (Or.inr (Or.inl ⟨q.1, hq⟩))
    · intro q hq r hr
      exact h r.2 (Or.inr (Or.inr (Or.inl ⟨q.1, q.2, r.1, hq, hr⟩)))
    · intro p hp
      exact h p (Or.inr (Or.inr (Or.inr hp)))


theorem modifyItem_maps (st : MState) (a : Nat) (st2 : MState) (e : Option PyErr)
    (h : modifyItem st a = (st2, e)) :
    st2.modelDict = st.modelDict ∧ st2.clockMap = st.clockMap ∧
    st2.moduleMap = st.moduleMap ∧ st2.objectMap = st.objectMap ∧
    st2.unnamed = st.unnamed := by
  unfold modifyItem at h
  repeat' split at h
  all_goals
    (injection h with h1 h2; subst h1; exact ⟨rfl, rfl, rfl, rfl, rfl⟩)


theorem ensure_pairIn_unnamed (st : MState) (ty : Val) (key : Int) (a : Nat) (p : Int × Nat)
    (hp : pairIn { ensureTypeEntry st ty with
        unnamed := (ensureTypeEntry st ty).unnamed ++ [(key, a)] } p) :
    pairIn st p ∨ p = (key, a) := by
  unfold pairIn at hp ⊢
  unfold ensureTypeEntry at hp
  split at hp
  · rcases hp with hp | hp | hp | hp
    · exact Or.inl (Or.inl hp)
    · exact Or.inl (Or.inr (Or.inl hp))
    · exact Or.inl (Or.inr (Or.inr (Or.inl hp)))
    · rcases List.mem_append.mp hp with h2 | h2
      · exact Or.inl (Or.inr (Or.inr (Or.inr h2)))
      · exact Or.inr (List.mem_singleton.mp h2)
  · rcases hp with hp | hp | ⟨ty2, m, nm2, hm, hp2⟩ | hp
    · exact Or.inl (Or.inl hp)
    · exact Or.inl (Or.inr (Or.inl hp))
    · rcases mem_alSet _ _ _ _ hm with h3 | h3
      · exact Or.inl (Or.inr (Or.inr (Or.inl ⟨ty2, m, nm2, h3, hp2⟩)))
      · injection h3 with h4 h5
        subst h5
        cases hp2
    · rcases List.mem_append.mp hp with h2 | h2
      · exact Or.inl (Or.inr (Or.inr (Or.inr h2)))
      · exact Or.inr (List.mem_singleton.mp h2)

theorem ensure_pairIn_named (st : MState) (ty nm : Val) (key : Int) (a : Nat) (p : Int × Nat)
    (hp : pairIn { ensureTypeEntry st ty with
        objectMap := alSet (ensureTypeEntry st ty).objectMap ty
          (alSet (tyMapOf (ensureTypeEntry st ty) ty) nm (key, a)) } p) :
    pairIn st p ∨ p = (key, a) := by
  unfold pairIn at hp ⊢
  unfold tyMapOf ensureTypeEntry at hp
  split at hp
  next hsome =>
    rcases Option.isSome_iff_exists.mp hsome with ⟨m0, hm0⟩
    rw [hm0] at hp
    rcases hp with hp | hp | ⟨ty2, m, nm2, hm, hp2⟩ | hp
    · exact Or.inl (Or.inl hp)
    · exact Or.inl (Or.inr (Or.inl hp))
    · rcases mem_alSet _ _ _ _ hm with h3 | h3
      · exact Or.inl (Or.inr (Or.inr (Or.inl ⟨ty2, m, nm2, h3, hp2⟩)))
      · injection h3 with h4 h5
        subst h5
        rcases mem_alSet _ _ _ _ hp2 with h6 | h6
        · exact Or.inl (Or.inr (Or.inr (Or.inl
            ⟨ty, m0, nm2, alGet_mem _ _ _ hm0, by simpa using h6⟩)))
        · injection h6 with h7 h8
          exact Or.inr h8
    · exact Or.inl (Or.inr (Or.inr (Or.inr hp)))
  next hnone =>
    rcases hp with hp | hp | ⟨ty2, m, nm2, hm, hp2⟩ | hp
    · exact Or.inl (Or.inl hp)
    · exact Or.inl (Or.inr (Or.inl hp))
    · rcases mem_alSet _ _ _ _ hm with h3 | h3
      · rcases mem_alSet _ _ _ _ h3 with h4 | h4
        · exact Or.inl (Or.inr (Or.inr (Or.inl ⟨ty2, m, nm2, h4, hp2⟩)))
        · injection h4 with h5 h6
          subst h6
          cases hp2
      · injection h3 with h5 h6
        subst h6
        have h7 : alGet? (alSet st.objectMap ty ([] : List (Val × (Int × Nat)))) ty
            = some [] := by
          rw [alGet_alSet]
          simp
        rw [h7] at hp2
        rcases mem_alSet _ _ _ _ hp2 with h8 | h8
        · simp at h8
        · injection h8 with h9 h10
          exact Or.inr h10
    · exact Or.inl (Or.inr (Or.inr (Or.inr hp)))

theorem addObjectToMap_pairIn (st : MState) (key : Int) (a : Nat) (st1 : MState)
    (h : addObjectToMap st key a = (st1, none)) :
    ∀ p, pairIn st1 p → pairIn st p ∨ p = (key, a) := by
  unfold addObjectToMap at h
  cases hg : alGet? st.heap a with
  | none => simp only [hg] at h; cases h
  | some d =>
    simp only [hg] at h
    cases hty : dGet? d "object" with
    | none => simp only [hty] at h; cases h
    | some ty =>
      simp only [hty] at h
      by_cases hh : valHashable ty = true
      · have hc2 : ¬ (¬ valHashable ty = true) := by simp [hh]
        rw [if_neg hc2] at h
        cases hnm : dGet? d "name" with
        | none =>
          simp only [hnm] at h
          injection h with h1 h2
          subst h1
          exact fun p hp => ensure_pairIn_unnamed st ty key a p hp
        | some nm =>
          simp only [hnm] at h
          by_cases hh2 : valHashable nm = true
          · have hc3 : ¬ (¬ valHashable nm = true) := by simp [hh2]
            rw [if_neg hc3] at h
            by_cases hdup : (alGet? (tyMapOf (ensureTypeEntry st ty) ty) nm).isSome = true
            · rw [if_pos hdup] at h
              cases h
            · rw [if_neg hdup] at h
              injection h with h1 h2
              subst h1
              exact fun p hp => ensure_pairIn_named st ty nm key a p hp
          · rw [if_pos (by simp [hh2] : ¬ valHashable nm = true)] at h
            cases h
      · rw [if_pos (by simp [hh] : ¬ valHashable ty = true)] at h
        cases h

theorem nonObjectMapStep_pairIn (st : MState) (t : String) (a : Nat) (st1 : MState)
    (h : nonObjectMapStep st t a = (st1, none)) :
    ∀ p, pairIn st1 p → pairIn st p ∨ p = (st.prependKey, a) := by
  unfold nonObjectMapStep at h
  by_cases h1 : t = "clock"
  · rw [if_pos h1] at h
    unfold addClockToMap at h
    cases hc : st.clockMap with
    | some q => simp only [hc] at h; cases h
    | none =>
      simp only [hc] at h
      injection h with h3 h4
      subst h3
      intro p hp
      unfold pairIn at hp ⊢
      rcases hp with hp | hp | hp | hp
      · injection hp with hp
        exact Or.inr hp.symm
      · exact Or.inl (Or.inr (Or.inl hp))
      · exact Or.inl (Or.inr (Or.inr (Or.inl hp)))
      · exact Or.inl (Or.inr (Or.inr (Or.inr hp)))
  · rw [if_neg h1] at h
    by_cases h2 : t = "module"
    · rw [if_pos h2] at h
      unfold addModuleToMap at h
      cases hg : alGet? st.heap a with
      | none => simp only [hg] at h; cases h
      | some d =>
        simp only [hg] at h
        cases hmn : moduleNameOf d with
        | error e2 => simp only [hmn] at h; cases h
        | ok nm =>
          simp only [hmn] at h
          by_cases hh : valHashable nm = true
          · have hc2 : ¬ (¬ valHashable nm = true) := by simp [hh]
            rw [if_neg hc2] at h
            by_cases hdup : (alGet? st.moduleMap nm).isSome = true
            · rw [if_pos hdup] at h
              cases h
            · rw [if_neg hdup] at h
              injection h with h3 h4
              subst h3
              intro p hp
              unfold pairIn at hp ⊢
              rcases hp with hp | ⟨nm2, hp⟩ | hp | hp
              · exact Or.inl (Or.inl hp)
              · rcases mem_alSet _ _ _ _ hp with h5 | h5
                · exact Or.inl (Or.inr (Or.inl ⟨nm2, h5⟩))
                · injection h5 with h6 h7
                  exact Or.inr h7
              · exact Or.inl (Or.inr (Or.inr (Or.inl hp)))
              · exact Or.inl (Or.inr (Or.inr (Or.inr hp)))
          · rw [if_pos (by simp [hh] : ¬ valHashable nm = true)] at h
            cases h
    · rw [if_neg h2] at h
      by_cases h3 : t = "set" ∨ t = "include"
      · rw [if_pos h3] at h
        injection h with h4 h5
        subst h4
        exact fun p hp => Or.inl hp
      · rw [if_neg h3] at h
        cases h

theorem aliasOK_addObjectM (st : MState) (a : Nat) (st2 : MState)
    (hA : aliasOK st = true)
    (hK : alGet? st.modelDict st.appendKey = none)
    (h : addObjectM st a = (st2, none)) : aliasOK st2 = true := by
  unfold addObjectM at h
  cases hom : addObjectToMap st st.appendKey a with
  | mk st1 e1 =>
    cases e1 with
    | some e2 => simp only [hom] at h; cases h
    | none =>
      simp only [hom] at h
      injection h with h1 h2
      subst h1
      obtain ⟨f1, f2, f3, f4, f5, f6⟩ := addObjectToMap_frame st st.appendKey a st1 none hom
      have hpairs := addObjectToMap_pairIn st st.appendKey a st1 hom
      apply (aliasOK_iff _).2
      intro p hp
      have hp1 : pairIn st1 p := hp
      show alGet? (alSet st1.modelDict st1.appendKey a) p.1 = some p.2
      rw [f2, f5]
      rcases hpairs p hp1 with hold | hnew
      · have h0 : alGet? st.modelDict p.1 = some p.2 := (aliasOK_iff st).1 hA p hold
        have hne : p.1 ≠ st.appendKey := by
          intro e
          rw [e, hK] at h0
          cases h0
        rw [alGet_alSet, if_neg hne]
        exact h0
      · rw [hnew, alGet_alSet]
        simp

theorem aliasOK_addNonObject (st : MState) (t : String) (a : Nat) (st2 : MState)
    (hA : aliasOK st = true)
    (hK : alGet? st.modelDict st.prependKey = none)
    (h : addNonObject st t a = (st2, none)) : aliasOK st2 = true := by
  unfold addNonObject at h
  cases hom : nonObjectMapStep st t a with
  | mk st1 e1 =>
    cases e1 with
    | some e2 => simp only [hom] at h; cases h
    | none =>
      simp only [hom] at h
      injection h with h1 h2
      subst h1
      obtain ⟨f1, f2, f3, f4, f5⟩ := nonObjectMapStep_frame st t a st1 none hom
      have hpairs := nonObjectMapStep_pairIn st t a st1 hom
      apply (aliasOK_iff _).2
      intro p hp
      have hp1 : pairIn st1 p := hp
      show alGet? (alSet st1.modelDict st1.prependKey a) p.1 = some p.2
      rw [f2, f4]
      rcases hpairs p hp1 with hold | hnew
      · have h0 : alGet? st.modelDict p.1 = some p.2 := (aliasOK_iff st).1 hA p hold
        have hne : p.1 ≠ st.prependKey := by
          intro e
          rw [e, hK] at h0
          cases h0
        rw [alGet_alSet, if_neg hne]
        exact h0
      · rw [hnew, alGet_alSet]
        simp


/-- C6: index/tree aliasing.  In the heap model, the index entries hold heap
addresses, and aliasing with the tree means the tree (`model_dict`) stores
the very same address at the entry\x27s key: (i) a successful `add_item`
preserves the alignment of every index entry with the tree, provided the
insertion counters are fresh tree keys; (ii) every `modify_item` call
(succeeding or not) preserves it, since it only rewrites heap cells; and
(iii) alignment means precisely that a `(type, name)` lookup through the
index returns a tree key at which the tree stores the identical dict
address, so a mutation through either view is visible through the other. -/
theorem c6_index_tree_aliasing :
    (∀ (st : MState) (a : Nat) (st2 : MState),
      aliasOK st = true →
      alGet? st.modelDict st.appendKey = none →
      alGet? st.modelDict st.prependKey = none →
      addItem st a = (st2, none) → aliasOK st2 = true) ∧
    (∀ (st : MState) (a : Nat) (st2 : MState) (e : Option PyErr),
      aliasOK st = true → modifyItem st a = (st2, e) → aliasOK st2 = true) ∧
    (∀ (st : MState) (ty nm : Val) (k : Int) (a : Nat),
      aliasOK st = true → lookupObject st ty nm = .ok (k, a) →
      alGet? st.modelDict k = some a) := by
  refine ⟨?_, ?_, ?_⟩
  · intro st a st2 hA hKa hKp h
    unfold addItem at h
    cases hg : alGet? st.heap a with
    | none => simp only [hg] at h; cases h
    | some d =>
      simp only [hg] at h
      cases ht : getItemType d with
      | error e2 => simp only [ht] at h; cases h
      | ok t =>
        simp only [ht] at h
        cases hco : coerceEntries d with
        | mk d2 e2 =>
          cases e2 with
          | some e3 => simp only [hco] at h; cases h
          | none =>
            simp only [hco] at h
            rcases getItemType_vals d t ht with hv | hv | hv | hv | hv | hv <;> subst hv
            · simp only [reduceIte] at h
              exact aliasOK_addObjectM { st with heap := alSet st.heap a d2 } a st2 hA hKa h
            · simp only [reduceIte] at h
              exact aliasOK_addNonObject { st with heap := alSet st.heap a d2 }
                "module" a st2 hA hKp h
            · simp only [reduceIte] at h
              exact aliasOK_addNonObject { st with heap := alSet st.heap a d2 }
                "clock" a st2 hA hKp h
            · simp only [reduceIte] at h
              exact aliasOK_addNonObject { st with heap := alSet st.heap a d2 }
                "include" a st2 hA hKp h
            · simp only [reduceIte] at h
              exact aliasOK_addNonObject { st with heap := alSet st.heap a d2 }
                "set" a st2 hA hKp h
            · simp only [reduceIte] at h
              unfold addNonObject at h
              cases hms : nonObjectMapStep { st with heap := alSet st.heap a d2 }
                  "omftype" a with
              | mk st1 e3 =>
                have he3 : e3 = some (.userWarning ("No add method for " ++ "omftype"
                    ++ " item type.")) := by
                  unfold nonObjectMapStep at hms
                  simp at hms
                  exact hms.2.symm
                subst he3
                simp only [hms] at h
                cases h
  · intro st a st2 e hA h
    obtain ⟨g1, g2, g3, g4, g5⟩ := modifyItem_maps st a st2 e h
    apply (aliasOK_iff st2).2
    intro p hp
    unfold pairIn at hp
    rw [g2, g3, g4, g5] at hp
    rw [g1]
    exact (aliasOK_iff st).1 hA p hp
  · intro st ty nm k a hA hl
    simp only [lookupObject] at hl
    split at hl
    · cases hl
    · cases hm : alGet? st.objectMap ty with
      | none => simp only [hm] at hl; cases hl
      | some tyMap =>
        simp only [hm] at hl
        cases hn : alGet? tyMap nm with
        | none => simp only [hn] at hl; cases hl
        | some ka =>
          simp only [hn] at hl
          injection hl with hl
          exact (aliasOK_iff st).1 hA (k, a)
            (Or.inr (Or.inr (Or.inl ⟨ty, tyMap, nm, alGet_mem _ _ _ hm,
              by rw [hl] at hn; exact alGet_mem _ _ _ hn⟩)))

theorem c6_index_tree_aliasing_witness :
    aliasOK (addItem c4State 103).1 = true ∧
    aliasOK (modifyItem c4State 102).1 = true ∧
    alGet? c4State.modelDict 2 = some 2 := by
  refine ⟨?_, ?_, ?_⟩
  · exact c6_index_tree_aliasing.1 c4State 103 (addItem c4State 103).1
      (by decide) (by decide) (by decide) (by rfl)
  · exact c6_index_tree_aliasing.2.1 c4State 102 (modifyItem c4State 102).1
      (modifyItem c4State 102).2 (by decide) (by rfl)
  · exact c6_index_tree_aliasing.2.2 c4State (Val.str "load") (Val.str "ld1") 2 2
      (by decide) (by rfl)


/-! ## Key-bound invariant for the manager counters -/

/-- The tree keys span exactly `[lo, hi]` (both attained), with the append
counter one above and the prepend counter one below - the state
`GLMManager.__init__` establishes from the max/min tree keys. -/
def boundsOK (st : MState) (lo hi : Int) : Prop :=
  (∀ k ∈ st.modelDict.map Prod.fst, lo ≤ k ∧ k ≤ hi) ∧
  lo ∈ st.modelDict.map Prod.fst ∧ hi ∈ st.modelDict.map Prod.fst ∧
  st.appendKey = hi + 1 ∧ st.prependKey = lo - 1

instance (st : MState) (lo hi : Int) : Decidable (boundsOK st lo hi) := by
  unfold boundsOK
  exact inferInstance

/-- State for the C8 witness: `c4State` plus an `#include` directive dict
at address 104. -/
def c8State : MState :=
  { c4State with
      heap := c4State.heap ++ [(104, .cons (.s "#include") (.str "foo.glm") .nil)] }

theorem alGet_none_of_not_mem {κ α : Type} [DecidableEq κ] (l : List (κ × α)) (k : κ)
    (h : k ∉ l.map Prod.fst) : alGet? l k = none := by
  induction l with
  | nil => rfl
  | cons p rest ih =>
    obtain ⟨k2, v2⟩ := p
    simp only [List.map_cons, List.mem_cons] at h
    push_neg at h
    have hne : ¬ k2 = k := fun e => h.1 e.symm
    simp only [alGet?, if_neg hne]
    exact ih h.2

theorem map_fst_alSet_fresh {κ α : Type} [DecidableEq κ] (l : List (κ × α)) (k : κ) (v : α)
    (h : alGet? l k = none) : (alSet l k v).map Prod.fst = l.map Prod.fst ++ [k] := by
  induction l with
  | nil => rfl
  | cons p rest ih =>
    obtain ⟨k2, v2⟩ := p
    by_cases hk : k2 = k
    · subst hk
      simp only [alGet?, if_pos rfl] at h
      cases h
    · simp only [alGet?, if_neg hk] at h
      have hs : alSet ((k2, v2) :: rest) k v = (k2, v2) :: alSet rest k v := by
        simp [alSet, hk]
      rw [hs]
      simp only [List.map_cons, ih h, List.cons_append]

theorem boundsOK_addObjectM (st : MState) (a : Nat) (st2 : MState) (lo hi : Int)
    (hB : boundsOK st lo hi) (h : addObjectM st a = (st2, none)) :
    st2.appendKey = st.appendKey + 1 ∧ st2.prependKey = st.prependKey ∧
    alGet? st2.modelDict st.appendKey = some a ∧ boundsOK st2 lo (hi + 1) := by
  obtain ⟨hBk, hBlo, hBhi, hBa, hBp⟩ := hB
  have hfresh : alGet? st.modelDict st.appendKey = none := by
    apply alGet_none_of_not_mem
    intro hmem
    have h2 := (hBk _ hmem).2
    omega
  unfold addObjectM at h
  cases hom : addObjectToMap st st.appendKey a with
  | mk st1 e1 =>
    cases e1 with
    | some e2 => simp only [hom] at h; cases h
    | none =>
      simp only [hom] at h
      injection h with h1 h2
      subst h1
      obtain ⟨f1, f2, f3, f4, f5, f6⟩ := addObjectToMap_frame st st.appendKey a st1 none hom
      have hmd : (alSet st1.modelDict st1.appendKey a).map Prod.fst
          = st.modelDict.map Prod.fst ++ [st.appendKey] := by
        rw [f2, f5]
        exact map_fst_alSet_fresh _ _ _ hfresh
      have hlohi : lo ≤ hi := (hBk lo hBlo).2
      unfold boundsOK
      refine ⟨?_, ?_, ?_, ?_, ?_, ?_, ?_, ?_⟩
      · show st1.appendKey + 1 = st.appendKey + 1
        rw [f5]
      · show st1.prependKey = st.prependKey
        exact f6
      · show alGet? (alSet st1.modelDict st1.appendKey a) st.appendKey = some a
        rw [f2, f5, alGet_alSet, if_pos rfl]
      · show ∀ k ∈ (alSet st1.modelDict st1.appendKey a).map Prod.fst, lo ≤ k ∧ k ≤ hi + 1
        rw [hmd]
        intro k hk
        rcases List.mem_append.mp hk with hk | hk
        · have h3 := hBk k hk
          omega
        · have h3 : k = st.appendKey := List.mem_singleton.mp hk
          omega
      · show lo ∈ (alSet st1.modelDict st1.appendKey a).map Prod.fst
        rw [hmd]
        exact List.mem_append_left _ hBlo
      · show hi + 1 ∈ (alSet st1.modelDict st1.appendKey a).map Prod.fst
        rw [hmd, ← hBa]
        exact List.mem_append_right _ (List.mem_singleton.mpr rfl)
      · show st1.appendKey + 1 = (hi + 1) + 1
        rw [f5, hBa]
      · show st1.prependKey = lo - 1
        rw [f6, hBp]

theorem boundsOK_addNonObject (st : MState) (t : String) (a : Nat) (st2 : MState)
    (lo hi : Int) (hB : boundsOK st lo hi) (h : addNonObject st t a = (st2, none)) :
    st2.prependKey = st.prependKey - 1 ∧ st2.appendKey = st.appendKey ∧
    alGet? st2.modelDict st.prependKey = some a ∧ boundsOK st2 (lo - 1) hi := by
  obtain ⟨hBk, hBlo, hBhi, hBa, hBp⟩ := hB
  have hfresh : alGet? st.modelDict st.prependKey = none := by
    apply alGet_none_of_not_mem
    intro hmem
    have h2 := (hBk _ hmem).1
    omega
  unfold addNonObject at h
  cases hom : nonObjectMapStep st t a with
  | mk st1 e1 =>
    cases e1 with
    | some e2 => simp only [hom] at h; cases h
    | none =>
      simp only [hom] at h
      injection h with h1 h2
      subst h1
      obtain ⟨f1, f2, f3, f4, f5⟩ := nonObjectMapStep_frame st t a st1 none hom
      have hmd : (alSet st1.modelDict st1.prependKey a).map Prod.fst
          = st.modelDict.map Prod.fst ++ [st.prependKey] := by
        rw [f2, f4]
        exact map_fst_alSet_fresh _ _ _ hfresh
      have hlohi : lo ≤ hi := (hBk lo hBlo).2
      unfold boundsOK
      refine ⟨?_, ?_, ?_, ?_, ?_, ?_, ?_, ?_⟩
      · show st1.prependKey - 1 = st.prependKey - 1
        rw [f4]
      · show st1.appendKey = st.appendKey
        exact f3
      · show alGet? (alSet st1.modelDict st1.prependKey a) st.prependKey = some a
        rw [f2, f4, alGet_alSet, if_pos rfl]
      · show ∀ k ∈ (alSet st1.modelDict st1.prependKey a).map Prod.fst,
          lo - 1 ≤ k ∧ k ≤ hi
        rw [hmd]
        intro k hk
        rcases List.mem_append.mp hk with hk | hk
        · have h3 := hBk k hk
          omega
        · have h3 : k = st.prependKey := List.mem_singleton.mp hk
          omega
      · show lo - 1 ∈ (alSet st1.modelDict st1.prependKey a).map Prod.fst
        rw [hmd, ← hBp]
        exact List.mem_append_right _ (List.mem_singleton.mpr rfl)
      · show hi ∈ (alSet st1.modelDict st1.prependKey a).map Prod.fst
        rw [hmd]
        exact List.mem_append_left _ hBhi
      · show st1.appendKey = hi + 1
        rw [f3, hBa]
      · show st1.prependKey - 1 = (lo - 1) - 1
        rw [f4, hBp]

theorem addItem_bounds_step (st : MState) (a : Nat) (st1 : MState) (lo hi : Int)
    (hB : boundsOK st lo hi) (h : addItem st a = (st1, none)) :
    boundsOK st1 lo (hi + 1) ∨ boundsOK st1 (lo - 1) hi := by
  unfold addItem at h
  cases hg : alGet? st.heap a with
  | none => simp only [hg] at h; cases h
  | some d =>
    simp only [hg] at h
    cases ht : getItemType d with
    | error e2 => simp only [ht] at h; cases h
    | ok t =>
      simp only [ht] at h
      cases hco : coerceEntries d with
      | mk d2 e2 =>
        cases e2 with
        | some e3 => simp only [hco] at h; cases h
        | none =>
          simp only [hco] at h
          rcases getItemType_vals d t ht with hv | hv | hv | hv | hv | hv <;> subst hv
          · simp only [reduceIte] at h
            exact Or.inl
              (boundsOK_addObjectM { st with heap := alSet st.heap a d2 }
                a st1 lo hi hB h).2.2.2
          · simp only [reduceIte] at h
            exact Or.inr
              (boundsOK_addNonObject { st with heap := alSet st.heap a d2 }
                "module" a st1 lo hi hB h).2.2.2
          · simp only [reduceIte] at h
            exact Or.inr
              (boundsOK_addNonObject { st with heap := alSet st.heap a d2 }
                "clock" a st1 lo hi hB h).2.2.2
          · simp only [reduceIte] at h
            exact Or.inr
              (boundsOK_addNonObject { st with heap := alSet st.heap a d2 }
                "include" a st1 lo hi hB h).2.2.2
          · simp only [reduceIte] at h
            exact Or.inr
              (boundsOK_addNonObject { st with heap := alSet st.heap a d2 }
                "set" a st1 lo hi hB h).2.2.2
          · simp only [reduceIte] at h
            unfold addNonObject at h
            cases hms : nonObjectMapStep { st with heap := alSet st.heap a d2 }
                "omftype" a with
            | mk st0 e3 =>
              have he3 : e3 = some (.userWarning ("No add method for " ++ "omftype"
                  ++ " item type.")) := by
                unfold nonObjectMapStep at hms
                simp at hms
                exact hms.2.symm
              subst he3
              simp only [hms] at h
              cases h


/-- C8: key monotonicity.  From a state whose tree keys span exactly
`[lo, hi]`: a successful top-level object add stores the item at
`append_key` and increments `append_key` by exactly 1, leaving
`prepend_key` alone, with the key span becoming `[lo, hi+1]`; a successful
clock/module/directive (`#include`/`#set`) add stores the item at
`prepend_key` and decrements `prepend_key` by exactly 1, leaving
`append_key` alone, with span `[lo-1, hi]`; and a successful sequence of
adds splits into N appends and M prepends with N + M the number of adds
and final span exactly `[lo - M, hi + N]`. -/
theorem c8_key_monotonicity :
    (∀ (st : MState) (a : Nat) (d : Val) (st2 : MState) (lo hi : Int),
      boundsOK st lo hi → alGet? st.heap a = some d →
      getItemType d = .ok "object" → addItem st a = (st2, none) →
      st2.appendKey = st.appendKey + 1 ∧ st2.prependKey = st.prependKey ∧
      alGet? st2.modelDict st.appendKey = some a ∧ boundsOK st2 lo (hi + 1)) ∧
    (∀ (st : MState) (a : Nat) (d : Val) (t : String) (st2 : MState) (lo hi : Int),
      boundsOK st lo hi → alGet? st.heap a = some d → getItemType d = .ok t →
      (t = "clock" ∨ t = "module" ∨ t = "include" ∨ t = "set") →
      addItem st a = (st2, none) →
      st2.prependKey = st.prependKey - 1 ∧ st2.appendKey = st.appendKey ∧
      alGet? st2.modelDict st.prependKey = some a ∧ boundsOK st2 (lo - 1) hi) ∧
    (∀ (as : List Nat) (st st2 : MState) (lo hi : Int),
      boundsOK st lo hi → runAdds as st = (st2, none) →
      ∃ N M : Nat, N + M = as.length ∧
        boundsOK st2 (lo - (M : Int)) (hi + (N : Int))) := by
  refine ⟨?_, ?_, ?_⟩
  · intro st a d st2 lo hi hB hd ht h
    unfold addItem at h
    simp only [hd, ht] at h
    cases hco : coerceEntries d with
    | mk d2 e2 =>
      cases e2 with
      | some e3 => simp only [hco] at h; cases h
      | none =>
        simp only [hco, reduceIte] at h
        exact boundsOK_addObjectM { st with heap := alSet st.heap a d2 } a st2 lo hi hB h
  · intro st a d t st2 lo hi hB hd ht htv h
    unfold addItem at h
    simp only [hd, ht] at h
    cases hco : coerceEntries d with
    | mk d2 e2 =>
      cases e2 with
      | some e3 => simp only [hco] at h; cases h
      | none =>
        simp only [hco] at h
        rcases htv with hv | hv | hv | hv <;> subst hv <;>
          simp only [reduceIte] at h
        · exact boundsOK_addNonObject { st with heap := alSet st.heap a d2 }
            "clock" a st2 lo hi hB h
        · exact boundsOK_addNonObject { st with heap := alSet st.heap a d2 }
            "module" a st2 lo hi hB h
        · exact boundsOK_addNonObject { st with heap := alSet st.heap a d2 }
            "include" a st2 lo hi hB h
        · exact boundsOK_addNonObject { st with heap := alSet st.heap a d2 }
            "set" a st2 lo hi hB h
  · intro as
    induction as with
    | nil =>
      intro st st2 lo hi hB h
      unfold runAdds at h
      injection h with h1 h2
      subst h1
      exact ⟨0, 0, rfl, by simpa using hB⟩
    | cons a rest ih =>
      intro st st2 lo hi hB h
      unfold runAdds at h
      cases ha : addItem st a with
      | mk st1 e1 =>
        cases e1 with
        | some e2 => simp only [ha] at h; cases h
        | none =>
          simp only [ha] at h
          rcases addItem_bounds_step st a st1 lo hi hB ha with h1 | h1
          · obtain ⟨N, M, hlen, hB2⟩ := ih st1 st2 lo (hi + 1) h1 h
            refine ⟨N + 1, M, by simp only [List.length_cons]; omega, ?_⟩
            rw [show ((N + 1 : Nat) : Int) = (N : Int) + 1 by push_cast; ring]
            rw [show hi + ((N : Int) + 1) = (hi + 1) + (N : Int) by ring]
            exact hB2
          · obtain ⟨N, M, hlen, hB2⟩ := ih st1 st2 (lo - 1) hi h1 h
            refine ⟨N, M + 1, by simp only [List.length_cons]; omega, ?_⟩
            rw [show ((M + 1 : Nat) : Int) = (M : Int) + 1 by push_cast; ring]
            rw [show lo - ((M : Int) + 1) = (lo - 1) - (M : Int) by ring]
            exact hB2

theorem c8_key_monotonicity_witness :
    ((addItem c8State 103).1.appendKey = c8State.appendKey + 1 ∧
      (addItem c8State 103).1.prependKey = c8State.prependKey ∧
      alGet? (addItem c8State 103).1.modelDict c8State.appendKey = some 103 ∧
      boundsOK (addItem c8State 103).1 0 (2 + 1)) ∧
    ((addItem c8State 104).1.prependKey = c8State.prependKey - 1 ∧
      (addItem c8State 104).1.appendKey = c8State.appendKey ∧
      alGet? (addItem c8State 104).1.modelDict c8State.prependKey = some 104 ∧
      boundsOK (addItem c8State 104).1 (0 - 1) 2) ∧
    (∃ N M : Nat, N + M = 2 ∧
      boundsOK (runAdds [103, 104] c8State).1 (0 - (M : Int)) (2 + (N : Int))) := by
  refine ⟨?_, ?_, ?_⟩
  · exact c8_key_monotonicity.1 c8State 103
      (Val.cons (PKey.s "object") (Val.str "load")
        (Val.cons (PKey.s "name") (Val.str "ld9") Val.nil))
      (addItem c8State 103).1 0 2 (by decide) (by rfl) (by rfl) (by rfl)
  · exact c8_key_monotonicity.2.1 c8State 104
      (Val.cons (PKey.s "#include") (Val.str "foo.glm") Val.nil)
      "include" (addItem c8State 104).1 0 2 (by decide) (by rfl) (by rfl)
      (by decide) (by rfl)
  · exact c8_key_monotonicity.2.2 [103, 104] c8State (runAdds [103, 104] c8State).1
      0 2 (by decide) (by rfl)

end ManageGLM
